import Mathlib

/-!
# ThreadWeaver: job life cycle and collection accounting

A shallow embedding of `src/src/job.cpp` and `src/src/collection_p.cpp`.

* Pointers are addresses; the null pointer is a distinguished value.
* A job's private data is a record; `Job::execute` is a function from the state
  before the call to the state after it, together with the trace of what the
  function did (executor calls, status stores, assertion checks) in program
  order.
* `Q_ASSERT` is compiled out in release builds.  The embedding follows the
  release behaviour and records what each data assertion would have found as
  an event of the trace, so that theorems can speak about assertions.  The
  assertions that a mutex is held (`!mutex.tryLock()`) have no counterpart:
  calls are taken one after the other, as the mutex serialises them.
* `QAtomicInt` is a 32 bit signed integer: its values are integers reduced to
  the 32 bit range by `int32`.
-/

namespace ThreadWeaver

/-! ## Statuses, pointers -/

/-- Modelled from the spec: the declaration of `JobInterface::Status` is not among
the sources; the spec lists the statuses `New`, `Queued`, `Running`, `Success`,
`Failed`, `Aborted` in this order, and `job.cpp` names them `Status_New` etc. -/
inductive Status
  | Status_New
  | Status_Queued
  | Status_Running
  | Status_Success
  | Status_Failed
  | Status_Aborted
  deriving DecidableEq, Repr

open Status

/-- Modelled from the spec: the numeric order of the enumerators of
`JobInterface::Status` (declaration missing), in the order the spec lists them;
`Job::execute` compares statuses with `>`. -/
def Status.toInt : Status → Int
  | Status_New => 1
  | Status_Queued => 2
  | Status_Running => 3
  | Status_Success => 4
  | Status_Failed => 5
  | Status_Aborted => 6

/-- Pointer to an `Executor`.  `null` is `0`, `defaultExecutor` is the address of the
process-wide `Private::defaultExecutor`, `debugExecuteWrapper` the address of the
wrapper object a job owns, `object a` any other executor object. -/
inductive ExecutorPtr
  | null
  | defaultExecutor
  | debugExecuteWrapper
  | object (addr : Nat)
  deriving DecidableEq, Repr

/-- Pointer to a `Thread`; `0` is the null pointer. -/
abbrev ThreadPtr := Nat

/-- Pointer to a `QueuePolicy`. -/
abbrev QueuePolicyPtr := Nat

/-- A `JobPointer` (`QSharedPointer<JobInterface>`): `none` is the null handle. -/
abbrev JobPointer := Option Nat

/-- Pointer to a `QueueAPI`: `none` is `0`. -/
abbrev QueueAPIPtr := Option Nat

/-- The fields of `Job_Private` that `job.cpp` reads and writes: `d()->status`,
`d()->executor` and `d()->queuePolicies`. -/
structure Job_Private where
  status : Status
  executor : ExecutorPtr
  queuePolicies : List QueuePolicyPtr
  deriving DecidableEq, Repr

/-- `Job::setStatus`: `d()->status.storeRelease(status)`. -/
def Job.setStatus (d : Job_Private) (status : Status) : Job_Private :=
  { d with status := status }

/-- `Job::status`: `d()->status.loadAcquire()`. -/
def Job.status (d : Job_Private) : Status := d.status

/-- `Job::success`. -/
def Job.success (d : Job_Private) : Bool := decide (d.status = Status_Success)

/-- `Job::isFinished`. -/
def Job.isFinished (d : Job_Private) : Bool :=
  let s := Job.status d
  decide (s = Status_Success) || decide (s = Status_Failed) || decide (s = Status_Aborted)

/-- The finished statuses, as `Job::isFinished` tests them. -/
def Status.isFinished (s : Status) : Bool :=
  decide (s = Status_Success) || decide (s = Status_Failed) || decide (s = Status_Aborted)

/-- `Job::setExecutor`: `fetchAndStoreOrdered(executor == 0 ? &defaultExecutor : executor)`;
the first component is the returned previous value of the slot. -/
def Job.setExecutor (d : Job_Private) (executor : ExecutorPtr) : ExecutorPtr × Job_Private :=
  (d.executor,
   { d with executor :=
      if executor = ExecutorPtr.null then ExecutorPtr.defaultExecutor else executor })

/-- `Job::executor`. -/
def Job.executor (d : Job_Private) : ExecutorPtr := d.executor

/-- Modelled from the spec: the constructor of `Job_Private` is not among the sources;
by the spec the executor slot is set from construction on to the default
pass-through executor, and no policy is attached yet.  Its status field is
overwritten by the constructor of `Job` before anyone can read it. -/
def Job_Private.new : Job_Private :=
  { status := Status_New, executor := ExecutorPtr.defaultExecutor, queuePolicies := [] }

set_option linter.dupNamespace false in
/-- `Job::Job()`.  With `debug` (the build without `NDEBUG`) the debug wrapper is put
into the executor slot; then `Status_New` is stored.  The second component is
the list of statuses the constructor stores. -/
def Job.Job (debug : Bool) : Job_Private × List Status :=
  let d := Job_Private.new
  let d := if debug then (Job.setExecutor d ExecutorPtr.debugExecuteWrapper).2 else d
  ({ d with status := Status_New }, [Status_New])

/-! ## Executors -/

/-- What a C++ call can throw: the two control-flow signals of the library and
anything else (identified by a tag). -/
inductive Thrown
  | JobAborted
  | JobFailed
  | other (tag : Nat)
  deriving DecidableEq, Repr

/-- How a call ended. -/
inductive Outcome
  | returned
  | threw (e : Thrown)
  deriving DecidableEq, Repr

/-- Everything an executor step can read and write: the job itself and the rest of
the program state, of an arbitrary type. -/
structure World (ε : Type) where
  job : Job_Private
  env : ε

/-- `self->setStatus(s)` in a world. -/
def World.setStatus {ε : Type} (w : World ε) (s : Status) : World ε :=
  { w with job := Job.setStatus w.job s }

/-- `self->status()` in a world. -/
def World.status {ε : Type} (w : World ε) : Status := Job.status w.job

/-- An `Executor` object: its four virtual operations, each an arbitrary state
transformer taking the thread pointer.  `execute` is the call `Job::execute`
guards with `try`, so it also says how the call ended; the state it returns is
the state at the moment it returned or threw.  `begin`, `end` and `cleanup` are
taken to return: `Job::execute` has no handler around them. -/
structure Executor (ε : Type) where
  begin : ThreadPtr → World ε → World ε
  execute : ThreadPtr → World ε → Outcome × World ε
  end_ : ThreadPtr → World ε → World ε
  cleanup : ThreadPtr → World ε → World ε

/-- What `Job::execute` does, in program order. -/
inductive Event
  | begin (executor : ExecutorPtr) (th : ThreadPtr)
  | execute (executor : ExecutorPtr) (th : ThreadPtr)
  | end_ (executor : ExecutorPtr) (th : ThreadPtr)
  | cleanup (executor : ExecutorPtr) (th : ThreadPtr)
  | setStatus (status : Status)
  | assertFinished (holds : Bool)
  | debugUncaught
  deriving DecidableEq, Repr

/-- The result of a call of `Job::execute`: the state afterwards, the error that left
the function (`none` when it returned), and the trace. -/
structure Run (ε : Type) where
  world : World ε
  rethrown : Option Thrown
  trace : List Event

/-- Dereferencing an executor pointer: the null pointer has no object. -/
def deref {ε : Type} (heap : ExecutorPtr → Option (Executor ε)) (p : ExecutorPtr) :
    Option (Executor ε) :=
  if p = ExecutorPtr.null then none else heap p

/-- `Job::execute(self, th)` with `self` the job itself.  `none` is the undefined
behaviour of calling through an executor pointer that has no object.  The local
function `finish` is the code after the `try` block. -/
def Job.execute {ε : Type} (heap : ExecutorPtr → Option (Executor ε)) (w : World ε)
    (th : ThreadPtr) : Option (Run ε) :=
  let executor := w.job.executor
  match deref heap executor with
  | none => none
  | some ex =>
    let w1 := ex.begin th w
    let w2 := w1.setStatus Status_Running
    let pre := [Event.begin executor th, Event.setStatus Status_Running,
      Event.execute executor th]
    let finish := fun (w4 : World ε) (wrote : List Event) =>
      let check := Event.assertFinished
        (decide (Status.toInt w4.status > Status.toInt Status_Running))
      let w5 := ex.end_ th w4
      let w6 := ex.cleanup th w5
      some { world := w6, rethrown := none,
             trace := pre ++ wrote ++ [check, Event.end_ executor th,
               Event.cleanup executor th] }
    match ex.execute th w2 with
    | (Outcome.returned, w3) =>
      if w3.status = Status_Running then
        finish (w3.setStatus Status_Success) [Event.setStatus Status_Success]
      else finish w3 []
    | (Outcome.threw Thrown.JobAborted, w3) =>
      finish (w3.setStatus Status_Aborted) [Event.setStatus Status_Aborted]
    | (Outcome.threw Thrown.JobFailed, w3) =>
      finish (w3.setStatus Status_Failed) [Event.setStatus Status_Failed]
    | (Outcome.threw (Thrown.other tag), w3) =>
      some { world := w3, rethrown := some (Thrown.other tag),
             trace := pre ++ [Event.debugUncaught] }

/-- `Job::blockingExecute`: `execute(ManagedJobPointer<Job>(this), 0)`. -/
def Job.blockingExecute {ε : Type} (heap : ExecutorPtr → Option (Executor ε))
    (w : World ε) : Option (Run ε) :=
  Job.execute heap w 0

/-- The statuses a trace stores, in order. -/
def statusWrites : List Event → List Status
  | [] => []
  | Event.setStatus s :: t => s :: statusWrites t
  | _ :: t => statusWrites t

/-- The executor calls of a trace, in order. -/
def executorCalls : List Event → List Event
  | [] => []
  | Event.setStatus _ :: t => executorCalls t
  | Event.assertFinished _ :: t => executorCalls t
  | Event.debugUncaught :: t => executorCalls t
  | e :: t => e :: executorCalls t


/-! ## Collections -/

/-- Reduction of an integer to the range of a 32 bit signed `int`. -/
def int32 (x : Int) : Int := (x + 2147483648) % 4294967296 - 2147483648

/-- What the functions of `Collection_Private` do to the outside, in program order.
`finalCleanup` marks an entry into `Collection_Private::finalCleanup`. -/
inductive CEvent
  | lock
  | unlock
  | counterStore (value : Int)
  | counterAdd (delta : Int)
  | startedAdd (delta : Int)
  | enqueue (api : Nat) (elements : List JobPointer)
  | dequeue (api : Nat) (element : JobPointer)
  | dequeue_p (api : Nat) (element : JobPointer)
  | finalCleanup
  | policyFree (policy : QueuePolicyPtr) (job : JobPointer)
  | setStatus (status : Status)
  | defaultBegin (executor : ExecutorPtr) (job : JobPointer) (thread : ThreadPtr)
  | defaultEnd (executor : ExecutorPtr) (job : JobPointer) (thread : ThreadPtr)
  | selfClear
  | assertSelfNotNull (holds : Bool)
  | assertStarted (holds : Bool)
  | assertRemaining (holds : Bool)
  deriving DecidableEq, Repr

/-- The members of `Collection_Private` that `collection_p.cpp` uses, on top of those
of the job (the collection is a job: `collection->setStatus` writes `status`).
`trace` is not a member: it collects the events of the calls made so far. -/
structure Collection_Private extends Job_Private where
  elements : List JobPointer
  api : QueueAPIPtr
  jobCounter : Int
  jobsStarted : Int
  self : JobPointer
  selfIsExecuting : Bool
  trace : List CEvent
  deriving DecidableEq, Repr

/-- `Collection_Private::Collection_Private()`: `api(0), jobCounter(0),
selfIsExecuting(false)`; the other members are default constructed, the job part
is that of a new job. -/
def Collection_Private.new (debug : Bool) : Collection_Private :=
  { toJob_Private := (Job.Job debug).1, elements := [], api := none, jobCounter := 0,
    jobsStarted := 0, self := none, selfIsExecuting := false, trace := [] }

/-- Appending events to the trace. -/
def Collection_Private.log (s : Collection_Private) (es : List CEvent) :
    Collection_Private :=
  { s with trace := s.trace ++ es }

/-- Modelled from the spec: `Job_Private::freeQueuePolicyResources` is not among the
sources; by the spec, on completion `free` is called on each attached policy
exactly once. -/
def Collection_Private.freeQueuePolicyResources (s : Collection_Private)
    (job : JobPointer) : Collection_Private :=
  s.log (s.queuePolicies.map (fun p => CEvent.policyFree p job))

/-- `Collection_Private::finalCleanup`. -/
def Collection_Private.finalCleanup (s : Collection_Private) : Collection_Private :=
  let s := s.log [CEvent.finalCleanup, CEvent.assertSelfNotNull s.self.isSome]
  let s := s.freeQueuePolicyResources s.self
  let s := { s with status := Status_Success }.log [CEvent.setStatus Status_Success]
  { s with api := none }

/-- `Collection_Private::prepareToEnqueueElements`: empty in Collection. -/
def Collection_Private.prepareToEnqueueElements (s : Collection_Private) :
    Collection_Private := s

/-- `Collection_Private::processCompletedElement`: empty in Collection. -/
def Collection_Private.processCompletedElement (s : Collection_Private)
    (_job : JobPointer) (_thread : ThreadPtr) : Collection_Private := s

/-- `Collection_Private::enqueueElements`.  `none` is the undefined behaviour of
`api->enqueue` on a null `api`. -/
def Collection_Private.enqueueElements (s : Collection_Private) :
    Option Collection_Private :=
  let s := s.prepareToEnqueueElements
  let count : Int := s.elements.length
  let s := { s with jobCounter := int32 (count + 1) }.log
    [CEvent.counterStore (int32 (count + 1))]
  match s.api with
  | none => none
  | some q => some (s.log [CEvent.enqueue q s.elements])

/-- `Collection_Private::elementStarted`. -/
def Collection_Private.elementStarted (s : Collection_Private) (_job : JobPointer)
    (thread : ThreadPtr) : Collection_Private :=
  let s := s.log [CEvent.lock, CEvent.assertSelfNotNull s.self.isSome]
  let old := s.jobsStarted
  let s := { s with jobsStarted := int32 (old + 1) }.log [CEvent.startedAdd 1]
  let s := if old = 0 then s.log [CEvent.defaultBegin s.executor s.self thread] else s
  s.log [CEvent.unlock]

/-- `Collection_Private::elementFinished`.  `remainingJobs` is
`jobCounter.fetchAndAddOrdered(-1) - 1`. -/
def Collection_Private.elementFinished (s : Collection_Private) (job : JobPointer)
    (thread : ThreadPtr) : Option Collection_Private :=
  let s := s.log [CEvent.lock, CEvent.assertSelfNotNull s.self.isSome]
  let afterSelf : Option Collection_Private :=
    if s.selfIsExecuting then
      match s.enqueueElements with
      | none => none
      | some t => some { t with selfIsExecuting := false }
    else some s
  match afterSelf with
  | none => none
  | some s =>
    let started := s.jobsStarted
    let s := s.log [CEvent.assertStarted (decide (started ≥ 0))]
    let remainingJobs := int32 (s.jobCounter - 1)
    let s := { s with jobCounter := int32 (s.jobCounter + -1) }.log [CEvent.counterAdd (-1)]
    let s := s.processCompletedElement job thread
    let s := s.log [CEvent.assertRemaining (decide (remainingJobs ≥ 0))]
    if remainingJobs = 0 then
      let s := s.finalCleanup
      let s := s.log [CEvent.defaultEnd s.executor s.self thread, CEvent.unlock]
      some ({ s with self := none }.log [CEvent.selfClear])
    else some (s.log [CEvent.unlock])

/-- `Collection_Private::dequeueElements`.  The `debug` output of the loop is not
part of the trace. -/
def Collection_Private.dequeueElements (s : Collection_Private)
    (queueApiIsLocked : Bool) : Collection_Private :=
  match s.api with
  | none => s
  | some q =>
    let s := s.log (s.elements.map (fun e =>
      if queueApiIsLocked then CEvent.dequeue_p q e else CEvent.dequeue q e))
    let jobCount := s.jobCounter
    let s := { s with jobCounter := 0 }.log [CEvent.counterStore 0]
    if jobCount ≠ 0 then s.finalCleanup else s

/-- Number of times `finalCleanup` has been entered so far. -/
def Collection_Private.finalCleanupRuns (s : Collection_Private) : Nat :=
  s.trace.count CEvent.finalCleanup

/-- Number of decrements of `jobCounter` so far. -/
def Collection_Private.decrements (s : Collection_Private) : Nat :=
  s.trace.count (CEvent.counterAdd (-1))

/-- The value `jobCounter` holds when `elementFinished` decrements it: the value
`enqueueElements` has just stored if the notification is the collection's own,
the old value otherwise. -/
def Collection_Private.counterBeforeDecrement (s : Collection_Private) : Int :=
  if s.selfIsExecuting then int32 ((s.elements.length : Int) + 1) else s.jobCounter

/-- A call on a collection, as it is made with the collection mutex held: a completion
notification or a dequeue. -/
inductive Op
  | elementFinished (job : JobPointer) (thread : ThreadPtr)
  | dequeueElements (queueApiIsLocked : Bool)
  deriving DecidableEq, Repr

/-- Whether a call is a completion notification. -/
def Op.isNotification : Op → Bool
  | Op.elementFinished _ _ => true
  | Op.dequeueElements _ => false

/-- One call. -/
def Collection_Private.step (s : Collection_Private) : Op → Option Collection_Private
  | Op.elementFinished job thread => s.elementFinished job thread
  | Op.dequeueElements locked => some (s.dequeueElements locked)

/-- A sequence of calls, one after the other (the calls are serialised by the
collection mutex). -/
def Collection_Private.run (s : Collection_Private) : List Op → Option Collection_Private
  | [] => some s
  | op :: ops =>
    match s.step op with
    | none => none
    | some t => t.run ops

/-- A sequence of completion notifications: one per listed job. -/
def notifications (jobs : List (JobPointer × ThreadPtr)) : List Op :=
  jobs.map (fun jt => Op.elementFinished jt.1 jt.2)

/-- Number of completion notifications in a sequence of calls. -/
def notificationCount (ops : List Op) : Nat := ops.countP Op.isNotification

/-- Where a collection stands after `done` completion notifications, possibly
interleaved with dequeues, counted from a state with `base` earlier entries
into `finalCleanup`: either nothing has been notified yet and the counter is
still the constructor's zero; or the children are queued and `jobCounter`
counts the outstanding notifications; or `finalCleanup` has run, the queue
reference is null and the counter is zero or below. -/
def Collection_Private.accounting (n base done : Nat) (s : Collection_Private) : Prop :=
  s.elements.length = n ∧
  ((done = 0 ∧ s.selfIsExecuting = true ∧ s.api ≠ none ∧ s.jobCounter = 0 ∧
      s.finalCleanupRuns = base) ∨
   (1 ≤ done ∧ done ≤ n ∧ s.selfIsExecuting = false ∧ s.api ≠ none ∧
      s.jobCounter = (n : Int) + 1 - done ∧ s.finalCleanupRuns = base) ∨
   (1 ≤ done ∧ s.selfIsExecuting = false ∧ s.api = none ∧
      -(done : Int) ≤ s.jobCounter ∧ s.jobCounter ≤ 0 ∧ s.finalCleanupRuns = base + 1))

/-! ## The status chain of the spec -/

/-- The transitions the spec allows: `New → Queued → Running → {Success, Failed,
Aborted}`, and `Queued → New` (dequeue).  Written from the spec, to compare the
code with. -/
def specTransition : Status → Status → Bool
  | Status_New, Status_Queued => true
  | Status_Queued, Status_Running => true
  | Status_Queued, Status_New => true
  | Status_Running, s => s.isFinished
  | _, _ => false

/-- Each status of the list follows from the one before by a transition of the spec. -/
def specPath : List Status → Bool
  | a :: b :: rest => specTransition a b && specPath (b :: rest)
  | _ => true

/-- A status sequence as the spec allows it from construction on: it starts with `New`
and moves along the transitions of the spec. -/
def followsSpecChain : List Status → Bool
  | [] => true
  | a :: rest => decide (a = Status_New) && specPath (a :: rest)

/-! ## Concrete collections used to instantiate the theorems -/

/-- A queued collection with two children and one policy whose own execution is
completing: the state `Collection::execute` leaves for the first notification. -/
def sampleCollection : Collection_Private :=
  { Collection_Private.new false with
    elements := [some 1, some 2], api := some 9, self := some 0,
    selfIsExecuting := true, queuePolicies := [5] }

/-- A queued collection with two children, after its own notification, with the given
value of `jobCounter`. -/
def queuedCollection (jobCounter : Int) : Collection_Private :=
  { sampleCollection with selfIsExecuting := false, jobCounter := jobCounter }

/-- A queued collection without children whose own body has failed: `Job::execute` has
stored `Status_Failed` before the executor's `end` notifies the collection. -/
def failedEmptyCollection : Collection_Private :=
  { Collection_Private.new false with
    status := Status_Failed, api := some 9, self := some 0, selfIsExecuting := true,
    queuePolicies := [5] }

/-! ## Concrete executors and states used to instantiate the theorems -/

/-- An executor whose four steps do nothing and whose `execute` returns normally. -/
def quietExecutor : Executor Unit :=
  { begin := fun _ w => w
    execute := fun _ w => (Outcome.returned, w)
    end_ := fun _ w => w
    cleanup := fun _ w => w }

/-- An executor whose body stores `Status_Failed` itself and returns normally. -/
def selfFailingExecutor : Executor Unit :=
  { quietExecutor with
    execute := fun _ w => (Outcome.returned, w.setStatus Status_Failed) }

/-- An executor whose body stores `Status_Success` and then throws `JobAborted`. -/
def abortingExecutor : Executor Unit :=
  { quietExecutor with
    execute := fun _ w => (Outcome.threw Thrown.JobAborted, w.setStatus Status_Success) }

/-- An executor whose body throws `JobFailed`. -/
def failingExecutor : Executor Unit :=
  { quietExecutor with execute := fun _ w => (Outcome.threw Thrown.JobFailed, w) }

/-- An executor whose body throws something else. -/
def crashingExecutor : Executor Unit :=
  { quietExecutor with execute := fun _ w => (Outcome.threw (Thrown.other 7), w) }

/-- A wrapper that takes itself out of the executor slot in `begin`. -/
def unchainingExecutor : Executor Unit :=
  { quietExecutor with
    begin := fun _ w => { w with job := (Job.setExecutor w.job ExecutorPtr.null).2 } }

/-- Executor objects at fixed addresses. -/
def sampleHeap : ExecutorPtr → Option (Executor Unit)
  | ExecutorPtr.defaultExecutor => some quietExecutor
  | ExecutorPtr.debugExecuteWrapper => some quietExecutor
  | ExecutorPtr.object 1 => some selfFailingExecutor
  | ExecutorPtr.object 2 => some abortingExecutor
  | ExecutorPtr.object 3 => some failingExecutor
  | ExecutorPtr.object 4 => some crashingExecutor
  | ExecutorPtr.object 5 => some unchainingExecutor
  | _ => none

/-- An executor whose body returns normally and whose `end` stores `Status_Failed`. -/
def endFailingExecutor : Executor Unit :=
  { quietExecutor with end_ := fun _ w => w.setStatus Status_Failed }

/-- An executor whose body throws `JobFailed` and whose `end` stores `Status_Success`. -/
def endSucceedingExecutor : Executor Unit :=
  { failingExecutor with end_ := fun _ w => w.setStatus Status_Success }

/-- An executor whose body throws `JobAborted` and whose `cleanup` stores
`Status_Success`. -/
def cleanupSucceedingExecutor : Executor Unit :=
  { quietExecutor with
    execute := fun _ w => (Outcome.threw Thrown.JobAborted, w)
    cleanup := fun _ w => w.setStatus Status_Success }

/-- Executor objects whose `end` or `cleanup` stores a status, at fixed addresses. -/
def storingHeap : ExecutorPtr → Option (Executor Unit)
  | ExecutorPtr.object 1 => some endFailingExecutor
  | ExecutorPtr.object 2 => some endSucceedingExecutor
  | ExecutorPtr.object 3 => some cleanupSucceedingExecutor
  | _ => none

/-- A job with the given status and executor, in a world with nothing else. -/
def sampleWorld (status : Status) (executor : ExecutorPtr) : World Unit :=
  { job := { status := status, executor := executor, queuePolicies := [] }, env := () }

/-- A freshly constructed job (release build), in a world with nothing else. -/
def freshWorld : World Unit := { job := (Job.Job false).1, env := () }

/-! ## Executor slot, policy list, destruction -/

/-- A sequence of `Job::setExecutor` calls, one after the other; the returned values
are dropped. -/
def Job.setExecutors (d : Job_Private) (args : List ExecutorPtr) : Job_Private :=
  args.foldl (fun d e => (Job.setExecutor d e).2) d

/-- `QList::indexOf`: the first index at which the value occurs, `-1` if it does not. -/
def QList.indexOf (l : List QueuePolicyPtr) (x : QueuePolicyPtr) : Int :=
  if x ∈ l then (List.indexOf x l : Int) else -1

/-- `QList::removeAt`: removes the entry at the index; an index out of range removes
nothing. -/
def QList.removeAt (l : List QueuePolicyPtr) (i : Int) : List QueuePolicyPtr :=
  if i < 0 then l else l.eraseIdx i.toNat

/-- `Job::assignQueuePolicy`. -/
def Job.assignQueuePolicy (d : Job_Private) (policy : QueuePolicyPtr) : Job_Private :=
  if ¬ d.queuePolicies.contains policy then
    { d with queuePolicies := d.queuePolicies ++ [policy] }
  else d

/-- `Job::removeQueuePolicy`. -/
def Job.removeQueuePolicy (d : Job_Private) (policy : QueuePolicyPtr) : Job_Private :=
  let index := QList.indexOf d.queuePolicies policy
  if index ≠ -1 then
    { d with queuePolicies := QList.removeAt d.queuePolicies index }
  else d

/-- `Job::queuePolicies`. -/
def Job.queuePolicies (d : Job_Private) : List QueuePolicyPtr := d.queuePolicies

/-- A call that changes the policy list of a job. -/
inductive PolicyOp
  | assign (policy : QueuePolicyPtr)
  | remove (policy : QueuePolicyPtr)
  deriving DecidableEq, Repr

/-- One call on the policy list. -/
def Job.applyPolicyOp (d : Job_Private) : PolicyOp → Job_Private
  | PolicyOp.assign p => Job.assignQueuePolicy d p
  | PolicyOp.remove p => Job.removeQueuePolicy d p

/-- A sequence of calls on the policy list, one after the other. -/
def Job.applyPolicyOps (d : Job_Private) (ops : List PolicyOp) : Job_Private :=
  ops.foldl Job.applyPolicyOp d

/-- A call the job makes on one of its policies. -/
inductive PolicyEvent
  | destructed (policy : QueuePolicyPtr) (job : JobPointer)
  deriving DecidableEq, Repr

/-- `Job::~Job`: the calls of the loop over `d()->queuePolicies`, in program order;
`this` is the job being destroyed. -/
def Job.destructor (d : Job_Private) (this : JobPointer) : List PolicyEvent :=
  d.queuePolicies.map (fun p => PolicyEvent.destructed p this)

/-! ## Counting calls in the trace of a collection -/

/-- A sequence of `elementStarted` notifications, one per listed job. -/
def Collection_Private.startAll (s : Collection_Private) :
    List (JobPointer × ThreadPtr) → Collection_Private
  | [] => s
  | jt :: rest => (s.elementStarted jt.1 jt.2).startAll rest

/-- Whether the event is a call of the executor's `defaultBegin`. -/
def CEvent.isDefaultBegin : CEvent → Bool
  | CEvent.defaultBegin _ _ _ => true
  | _ => false

/-- Number of `defaultBegin` calls so far. -/
def Collection_Private.beginCalls (s : Collection_Private) : Nat :=
  s.trace.countP CEvent.isDefaultBegin

/-- Whether the event is a bulk enqueue of elements. -/
def CEvent.isEnqueue : CEvent → Bool
  | CEvent.enqueue _ _ => true
  | _ => false

/-- Number of bulk enqueue calls so far. -/
def Collection_Private.enqueueCalls (s : Collection_Private) : Nat :=
  s.trace.countP CEvent.isEnqueue

/-- Whether the event is a dequeue request, of either variant. -/
def CEvent.isDequeue : CEvent → Bool
  | CEvent.dequeue _ _ => true
  | CEvent.dequeue_p _ _ => true
  | _ => false

/-- Whether every `self.clear()` of the events happens while the collection mutex is
held; `held` says whether it is held before the first event. -/
def selfClearedUnderMutex (held : Bool) : List CEvent → Bool
  | [] => true
  | CEvent.lock :: rest => selfClearedUnderMutex true rest
  | CEvent.unlock :: rest => selfClearedUnderMutex false rest
  | CEvent.selfClear :: rest => held && selfClearedUnderMutex held rest
  | _ :: rest => selfClearedUnderMutex held rest

/-- The events of the last notification from `finalCleanup` on: the cleanup with its
policy calls and status store, the collection's `end`, the unlock, the clearing
of the self-handle. -/
def Collection_Private.completionEvents (s : Collection_Private) (thread : ThreadPtr) :
    List CEvent :=
  [CEvent.finalCleanup, CEvent.assertSelfNotNull s.self.isSome] ++
    s.queuePolicies.map (fun p => CEvent.policyFree p s.self) ++
    [CEvent.setStatus Status_Success, CEvent.defaultEnd s.executor s.self thread,
      CEvent.unlock, CEvent.selfClear]

/-- The value `remainingJobs` that `elementFinished` computes when it is called in this
state: `jobCounter.fetchAndAddOrdered(-1) - 1`, on the counter as the call finds
it or as `enqueueElements` has just stored it. -/
def Collection_Private.remainingJobs (s : Collection_Private) : Int :=
  int32 (s.counterBeforeDecrement - 1)

/-- Number of notifications so far in which `Q_ASSERT(remainingJobs >= 0)` did not
hold. -/
def Collection_Private.failedRemainingAsserts (s : Collection_Private) : Nat :=
  s.trace.count (CEvent.assertRemaining false)

/-! ## Sequences

`sequence_p.h` declares `Sequence_Private` with a constructor only; the code
that orders the children of a sequence (the hooks of the sequence, the
dependency policy, the dispatch of the queue) is not among the sources.  This
section follows the spec. -/

/-- Modelled from the spec: where a child of a queued sequence stands: waiting in the
queue, picked up by a worker, finished with a terminal status, or taken out of
the queue before it started.  The job, queue and policy classes that keep this
state are missing. -/
inductive ChildState
  | queued
  | running
  | finished (status : Status)
  | dequeued
  deriving DecidableEq, Repr

/-- Modelled from the spec: the children `c[0..n-1]` of a sequence by index, and the
graph of the dependency policy, a pair `(a, b)` standing for "child `a` depends
on child `b`".  `DependencyPolicy` is missing. -/
structure SequenceState where
  children : List ChildState
  dependencies : List (Nat × Nat)
  deriving DecidableEq, Repr

/-- Modelled from the spec: `DependencyPolicy::canRun` (missing), "true iff A has no
unresolved dependencies". -/
def DependencyPolicy.canRun (dependencies : List (Nat × Nat)) (a : Nat) : Bool :=
  dependencies.all (fun e => e.1 != a)

/-- Modelled from the spec: what `DependencyPolicy` (missing) does when a job finishes:
the edges that lead to it are removed, so that nothing depends on it any more. -/
def DependencyPolicy.resolveDependencies (dependencies : List (Nat × Nat)) (b : Nat) :
    List (Nat × Nat) :=
  dependencies.filter (fun e => e.2 != b)

/-- Modelled from the spec: the `prepareToEnqueueElements` of a sequence (missing), which
"installs a dependency from each child `c[i+1]` on `c[i]`", followed by the bulk
enqueue of the `n` children. -/
def Sequence_Private.prepareToEnqueueElements (n : Nat) : SequenceState :=
  { children := List.replicate n ChildState.queued
    dependencies := (List.range (n - 1)).map (fun i => (i + 1, i)) }

/-- Modelled from the spec: the `processCompletedElement` of a sequence (missing): "if
the element terminated in Failed or Aborted, all subsequent still-pending
children are dequeued". -/
def Sequence_Private.processCompletedElement (children : List ChildState) (i : Nat)
    (status : Status) : List ChildState :=
  if status = Status_Failed ∨ status = Status_Aborted then
    children.mapIdx (fun j c =>
      if i < j ∧ c = ChildState.queued then ChildState.dequeued else c)
  else children

/-- Modelled from the spec: what can happen to a child of a queued sequence: a worker
starts it, or it finishes with a status.  The queue and its workers are missing. -/
inductive SequenceStep
  | start (i : Nat)
  | finish (i : Nat) (status : Status)
  deriving DecidableEq, Repr

/-- Modelled from the spec: one step of the queue (missing).  A child is started only if
it is queued and every policy admits it, here the dependency policy; a running
child finishes with a terminal status, its dependents are released and the
sequence is told.  `none`: the step cannot happen in this state. -/
def SequenceState.step (s : SequenceState) : SequenceStep → Option SequenceState
  | SequenceStep.start i =>
    if s.children[i]? = some ChildState.queued ∧
        DependencyPolicy.canRun s.dependencies i = true then
      some { s with children := s.children.set i ChildState.running }
    else none
  | SequenceStep.finish i status =>
    if s.children[i]? = some ChildState.running ∧ status.isFinished = true then
      some
        { children := Sequence_Private.processCompletedElement
            (s.children.set i (ChildState.finished status)) i status
          dependencies := DependencyPolicy.resolveDependencies s.dependencies i }
    else none

/-- Modelled from the spec: a sequence of steps of the queue, one after the other. -/
def SequenceState.run (s : SequenceState) : List SequenceStep → Option SequenceState
  | [] => some s
  | step :: rest =>
    match s.step step with
    | none => none
    | some t => t.run rest

/-- The order a sequence keeps among its `n` children: every child still has its
dependency on its predecessor unless the predecessor has finished with a
terminal status, and the predecessor of a child that has started has finished. -/
def SequenceState.ordered (n : Nat) (s : SequenceState) : Prop :=
  s.children.length = n ∧
  (∀ i, i + 1 < n →
    (i + 1, i) ∈ s.dependencies ∨
    ∃ st, s.children[i]? = some (ChildState.finished st) ∧ st.isFinished = true) ∧
  (∀ i, (s.children[i + 1]? = some ChildState.running ∨
      ∃ st, s.children[i + 1]? = some (ChildState.finished st)) →
    ∃ st, s.children[i]? = some (ChildState.finished st) ∧ st.isFinished = true)

/-! ## Lemmas on collections -/

/-- In the 32 bit range `int32` changes nothing. -/
theorem int32_of_range (x : Int) (h1 : -2147483648 ≤ x) (h2 : x < 2147483648) :
    int32 x = x := by
  unfold int32; omega

/-- Freeing policies is no entry into `finalCleanup`, nor a decrement. -/
theorem count_policyFree (ps : List QueuePolicyPtr) (job : JobPointer) (e : CEvent)
    (h : ∀ p, e ≠ CEvent.policyFree p job) :
    (ps.map (fun p => CEvent.policyFree p job)).count e = 0 := by
  rw [List.count_eq_zero]
  intro hmem
  obtain ⟨p, _, hp⟩ := List.mem_map.1 hmem
  exact h p hp.symm

/-- Dequeue requests are no entry into `finalCleanup`, nor a decrement. -/
theorem count_dequeue (es : List JobPointer) (q : Nat) (locked : Bool) (e : CEvent)
    (h1 : ∀ x, e ≠ CEvent.dequeue q x) (h2 : ∀ x, e ≠ CEvent.dequeue_p q x) :
    (es.map (fun x => if locked then CEvent.dequeue_p q x else CEvent.dequeue q x)).count e
      = 0 := by
  rw [List.count_eq_zero]
  intro hmem
  obtain ⟨x, _, hx⟩ := List.mem_map.1 hmem
  cases locked
  · exact h1 x (by simpa using hx.symm)
  · exact h2 x (by simpa using hx.symm)

/-- What `finalCleanup` does to the members and the counts. -/
theorem Collection_Private.finalCleanup_spec (s : Collection_Private) :
    s.finalCleanup.api = none ∧ s.finalCleanup.status = Status_Success ∧
    s.finalCleanup.jobCounter = s.jobCounter ∧
    s.finalCleanup.selfIsExecuting = s.selfIsExecuting ∧
    s.finalCleanup.elements = s.elements ∧ s.finalCleanup.self = s.self ∧
    s.finalCleanup.executor = s.executor ∧
    s.finalCleanup.queuePolicies = s.queuePolicies ∧
    s.finalCleanup.jobsStarted = s.jobsStarted ∧
    s.finalCleanup.finalCleanupRuns = s.finalCleanupRuns + 1 ∧
    s.finalCleanup.decrements = s.decrements ∧
    s.finalCleanup.trace = s.trace ++
      ([CEvent.finalCleanup, CEvent.assertSelfNotNull s.self.isSome] ++
        s.queuePolicies.map (fun p => CEvent.policyFree p s.self) ++
        [CEvent.setStatus Status_Success]) := by
  have hc := count_policyFree s.queuePolicies s.self CEvent.finalCleanup (by intro p; simp)
  have hd := count_policyFree s.queuePolicies s.self (CEvent.counterAdd (-1))
    (by intro p; simp)
  refine ⟨rfl, rfl, rfl, rfl, rfl, rfl, rfl, rfl, rfl, ?_, ?_, ?_⟩
  · simp [Collection_Private.finalCleanup, Collection_Private.finalCleanupRuns,
      Collection_Private.log, Collection_Private.freeQueuePolicyResources, hc]
  · simp [Collection_Private.finalCleanup, Collection_Private.decrements,
      Collection_Private.log, Collection_Private.freeQueuePolicyResources, hd]
  · simp [Collection_Private.finalCleanup,
      Collection_Private.log, Collection_Private.freeQueuePolicyResources]

/-- What `enqueueElements` does on a queued collection. -/
theorem Collection_Private.enqueueElements_spec (s : Collection_Private) (q : Nat)
    (hq : s.api = some q) :
    s.enqueueElements = some
      { s with
        jobCounter := int32 ((s.elements.length : Int) + 1)
        trace := s.trace ++ [CEvent.counterStore (int32 ((s.elements.length : Int) + 1)),
          CEvent.enqueue q s.elements] } := by
  simp [Collection_Private.enqueueElements, Collection_Private.prepareToEnqueueElements,
    Collection_Private.log, hq]

/-- What one completion notification does: it returns (the collection's own
notification needs the queue reference), decrements `jobCounter` once, and
enters `finalCleanup` exactly when the decremented value is zero. -/
theorem Collection_Private.elementFinished_spec (s : Collection_Private)
    (job : JobPointer) (thread : ThreadPtr)
    (hq : s.selfIsExecuting = true → s.api ≠ none) :
    ∃ t, s.elementFinished job thread = some t ∧
      t.jobCounter = int32 (s.counterBeforeDecrement - 1) ∧
      t.selfIsExecuting = false ∧ t.elements = s.elements ∧
      t.decrements = s.decrements + 1 ∧
      (int32 (s.counterBeforeDecrement - 1) = 0 →
        t.api = none ∧ t.finalCleanupRuns = s.finalCleanupRuns + 1 ∧
        t.status = Status_Success ∧ t.self = none) ∧
      (int32 (s.counterBeforeDecrement - 1) ≠ 0 →
        t.api = s.api ∧ t.finalCleanupRuns = s.finalCleanupRuns ∧
        t.status = s.status ∧ t.self = s.self) := by
  have hc := count_policyFree s.queuePolicies s.self CEvent.finalCleanup (by intro p; simp)
  have hd := count_policyFree s.queuePolicies s.self (CEvent.counterAdd (-1))
    (by intro p; simp)
  have e : ∀ x : Int, x + -1 = x - 1 := fun x => by omega
  cases hself : s.selfIsExecuting
  · by_cases hz : int32 (s.jobCounter - 1) = 0
    · simp [Collection_Private.elementFinished, Collection_Private.counterBeforeDecrement,
        Collection_Private.processCompletedElement, Collection_Private.finalCleanup,
        Collection_Private.freeQueuePolicyResources, Collection_Private.log,
        Collection_Private.finalCleanupRuns, Collection_Private.decrements, hself, hz,
        hc, hd, e]
    · simp [Collection_Private.elementFinished, Collection_Private.counterBeforeDecrement,
        Collection_Private.processCompletedElement, Collection_Private.log,
        Collection_Private.finalCleanupRuns, Collection_Private.decrements, hself, hz,
        e]
  · obtain ⟨q, hq⟩ := Option.ne_none_iff_exists'.1 (hq hself)
    by_cases hz : int32 (int32 ((s.elements.length : Int) + 1) - 1) = 0
    · simp [Collection_Private.elementFinished, Collection_Private.counterBeforeDecrement,
        Collection_Private.processCompletedElement, Collection_Private.finalCleanup,
        Collection_Private.freeQueuePolicyResources, Collection_Private.log,
        Collection_Private.finalCleanupRuns, Collection_Private.decrements, hself, hz,
        hc, hd, hq, e,
        Collection_Private.enqueueElements, Collection_Private.prepareToEnqueueElements]
    · simp [Collection_Private.elementFinished, Collection_Private.counterBeforeDecrement,
        Collection_Private.processCompletedElement, Collection_Private.log,
        Collection_Private.finalCleanupRuns, Collection_Private.decrements, hself, hz,
        hq, e, Collection_Private.enqueueElements,
        Collection_Private.prepareToEnqueueElements]

/-- The collection's own notification stores the number of elements plus one into
`jobCounter` before it decrements. -/
theorem Collection_Private.elementFinished_stores_count (s : Collection_Private)
    (job : JobPointer) (thread : ThreadPtr) (q : Nat)
    (hself : s.selfIsExecuting = true) (hq : s.api = some q) :
    ∃ t, s.elementFinished job thread = some t ∧
      CEvent.counterStore (int32 ((s.elements.length : Int) + 1)) ∈ t.trace ∧
      CEvent.enqueue q s.elements ∈ t.trace := by
  by_cases hz : int32 (int32 ((s.elements.length : Int) + 1) - 1) = 0
  · simp [Collection_Private.elementFinished, Collection_Private.processCompletedElement,
      Collection_Private.finalCleanup, Collection_Private.freeQueuePolicyResources,
      Collection_Private.log, hself, hz, hq, Collection_Private.enqueueElements,
      Collection_Private.prepareToEnqueueElements]
  · simp [Collection_Private.elementFinished, Collection_Private.processCompletedElement,
      Collection_Private.log, hself, hz, hq, Collection_Private.enqueueElements,
      Collection_Private.prepareToEnqueueElements]

/-- What `dequeueElements` does, by cases on the queue reference and on `jobCounter`. -/
theorem Collection_Private.dequeueElements_spec (s : Collection_Private)
    (locked : Bool) :
    (s.dequeueElements locked).selfIsExecuting = s.selfIsExecuting ∧
    (s.dequeueElements locked).elements = s.elements ∧
    (s.dequeueElements locked).decrements = s.decrements ∧
    (s.api = none → s.dequeueElements locked = s) ∧
    (s.api ≠ none →
      (s.dequeueElements locked).jobCounter = 0 ∧
      (s.jobCounter ≠ 0 →
        (s.dequeueElements locked).api = none ∧
        (s.dequeueElements locked).finalCleanupRuns = s.finalCleanupRuns + 1 ∧
        (s.dequeueElements locked).status = Status_Success) ∧
      (s.jobCounter = 0 →
        (s.dequeueElements locked).api = s.api ∧
        (s.dequeueElements locked).finalCleanupRuns = s.finalCleanupRuns ∧
        (s.dequeueElements locked).status = s.status)) := by
  have hc := count_policyFree s.queuePolicies s.self CEvent.finalCleanup (by intro p; simp)
  have hd := count_policyFree s.queuePolicies s.self (CEvent.counterAdd (-1))
    (by intro p; simp)
  cases hapi : s.api with
  | none => simp [Collection_Private.dequeueElements, hapi]
  | some q =>
    have hc2 := count_dequeue s.elements q locked CEvent.finalCleanup
      (by intro x; simp) (by intro x; simp)
    have hd2 := count_dequeue s.elements q locked (CEvent.counterAdd (-1))
      (by intro x; simp) (by intro x; simp)
    by_cases hz : s.jobCounter = 0
    · simp [Collection_Private.dequeueElements, Collection_Private.log,
        Collection_Private.finalCleanupRuns, Collection_Private.decrements, hapi, hz,
        hc2, hd2]
    · simp [Collection_Private.dequeueElements, Collection_Private.finalCleanup,
        Collection_Private.freeQueuePolicyResources, Collection_Private.log,
        Collection_Private.finalCleanupRuns, Collection_Private.decrements, hapi, hz,
        hc, hd, hc2, hd2]

/-! ## Theorems: `Job::execute` -/


/-- The run of `Job::execute` when the execute step returns with status `Running`. -/
theorem Job.execute_eq_success {ε : Type} (heap : ExecutorPtr → Option (Executor ε))
    (w : World ε) (th : ThreadPtr) (ex : Executor ε) (w3 : World ε)
    (hex : deref heap w.job.executor = some ex)
    (hret : ex.execute th ((ex.begin th w).setStatus Status_Running)
      = (Outcome.returned, w3))
    (hs : w3.status = Status_Running) :
    Job.execute heap w th = some
      { world := ex.cleanup th (ex.end_ th (w3.setStatus Status_Success))
        rethrown := none
        trace := [Event.begin w.job.executor th, Event.setStatus Status_Running,
          Event.execute w.job.executor th, Event.setStatus Status_Success,
          Event.assertFinished true, Event.end_ w.job.executor th,
          Event.cleanup w.job.executor th] } := by
  simp only [Job.execute, hex, hret, hs, if_true]; rfl

/-- The run of `Job::execute` when the execute step returns with another status. -/
theorem Job.execute_eq_kept {ε : Type} (heap : ExecutorPtr → Option (Executor ε))
    (w : World ε) (th : ThreadPtr) (ex : Executor ε) (w3 : World ε)
    (hex : deref heap w.job.executor = some ex)
    (hret : ex.execute th ((ex.begin th w).setStatus Status_Running)
      = (Outcome.returned, w3))
    (hs : w3.status ≠ Status_Running) :
    Job.execute heap w th = some
      { world := ex.cleanup th (ex.end_ th w3)
        rethrown := none
        trace := [Event.begin w.job.executor th, Event.setStatus Status_Running,
          Event.execute w.job.executor th,
          Event.assertFinished
            (decide (Status.toInt w3.status > Status.toInt Status_Running)),
          Event.end_ w.job.executor th, Event.cleanup w.job.executor th] } := by
  simp only [Job.execute, hex, hret, hs, if_false]; rfl

/-- The run of `Job::execute` when the execute step throws `JobAborted`. -/
theorem Job.execute_eq_aborted {ε : Type} (heap : ExecutorPtr → Option (Executor ε))
    (w : World ε) (th : ThreadPtr) (ex : Executor ε) (w3 : World ε)
    (hex : deref heap w.job.executor = some ex)
    (hthrow : ex.execute th ((ex.begin th w).setStatus Status_Running)
      = (Outcome.threw Thrown.JobAborted, w3)) :
    Job.execute heap w th = some
      { world := ex.cleanup th (ex.end_ th (w3.setStatus Status_Aborted))
        rethrown := none
        trace := [Event.begin w.job.executor th, Event.setStatus Status_Running,
          Event.execute w.job.executor th, Event.setStatus Status_Aborted,
          Event.assertFinished true, Event.end_ w.job.executor th,
          Event.cleanup w.job.executor th] } := by
  simp only [Job.execute, hex, hthrow]; rfl

/-- The run of `Job::execute` when the execute step throws `JobFailed`. -/
theorem Job.execute_eq_failed {ε : Type} (heap : ExecutorPtr → Option (Executor ε))
    (w : World ε) (th : ThreadPtr) (ex : Executor ε) (w3 : World ε)
    (hex : deref heap w.job.executor = some ex)
    (hthrow : ex.execute th ((ex.begin th w).setStatus Status_Running)
      = (Outcome.threw Thrown.JobFailed, w3)) :
    Job.execute heap w th = some
      { world := ex.cleanup th (ex.end_ th (w3.setStatus Status_Failed))
        rethrown := none
        trace := [Event.begin w.job.executor th, Event.setStatus Status_Running,
          Event.execute w.job.executor th, Event.setStatus Status_Failed,
          Event.assertFinished true, Event.end_ w.job.executor th,
          Event.cleanup w.job.executor th] } := by
  simp only [Job.execute, hex, hthrow]; rfl

/-- The run of `Job::execute` when the execute step throws something else. -/
theorem Job.execute_eq_rethrown {ε : Type} (heap : ExecutorPtr → Option (Executor ε))
    (w : World ε) (th : ThreadPtr) (ex : Executor ε) (tag : Nat) (w3 : World ε)
    (hex : deref heap w.job.executor = some ex)
    (hthrow : ex.execute th ((ex.begin th w).setStatus Status_Running)
      = (Outcome.threw (Thrown.other tag), w3)) :
    Job.execute heap w th = some
      { world := w3
        rethrown := some (Thrown.other tag)
        trace := [Event.begin w.job.executor th, Event.setStatus Status_Running,
          Event.execute w.job.executor th, Event.debugUncaught] } := by
  simp only [Job.execute, hex, hthrow]; rfl

/-- C1, as the claim states it, fails: the execute step returns normally with the status
still `Running` and `Job::execute` stores `Success`, but the executor's `end`,
which is called after that store, stores `Failed`, and `Failed` is the status
after `Job::execute`. -/
theorem Job.execute_success_replaced_by_end :
    endFailingExecutor.execute 0
      ((endFailingExecutor.begin 0
        (sampleWorld Status_Queued (ExecutorPtr.object 1))).setStatus Status_Running)
      = (Outcome.returned,
        (sampleWorld Status_Queued (ExecutorPtr.object 1)).setStatus Status_Running) ∧
    ((sampleWorld Status_Queued (ExecutorPtr.object 1)).setStatus Status_Running).status
      = Status_Running ∧
    (Job.execute storingHeap (sampleWorld Status_Queued (ExecutorPtr.object 1)) 0).map
      (fun r => (r.rethrown, statusWrites r.trace, r.world.status))
      = some (none, [Status_Running, Status_Success], Status_Failed) := by
  refine ⟨rfl, rfl, ?_⟩
  decide

/-- C1, amended.  When the execute step returns normally, `Job::execute` returns
normally too.  If the step left the status `Running`, `Job::execute` stores
`Success` (its status stores are `Running`, `Success`), so that the status is
`Success` when `end` is called, and the status after `Job::execute` is
`Success` when `end` and `cleanup` leave the status alone.  If the step left
another status, `Job::execute` stores nothing after `Running`: that status is
handed on unchanged. -/
theorem Job.execute_returned {ε : Type} (heap : ExecutorPtr → Option (Executor ε))
    (w : World ε) (th : ThreadPtr) (ex : Executor ε) (w3 : World ε)
    (hex : deref heap w.job.executor = some ex)
    (hret : ex.execute th ((ex.begin th w).setStatus Status_Running)
      = (Outcome.returned, w3)) :
    ∃ r, Job.execute heap w th = some r ∧ r.rethrown = none ∧
      (w3.status = Status_Running →
        r.world = ex.cleanup th (ex.end_ th (w3.setStatus Status_Success)) ∧
        (w3.setStatus Status_Success).status = Status_Success ∧
        statusWrites r.trace = [Status_Running, Status_Success] ∧
        ((∀ v, (ex.end_ th v).status = v.status) →
          (∀ v, (ex.cleanup th v).status = v.status) →
          r.world.status = Status_Success)) ∧
      (w3.status ≠ Status_Running →
        r.world = ex.cleanup th (ex.end_ th w3) ∧
        statusWrites r.trace = [Status_Running] ∧
        ((∀ v, (ex.end_ th v).status = v.status) →
          (∀ v, (ex.cleanup th v).status = v.status) →
          r.world.status = w3.status)) := by
  by_cases hs : w3.status = Status_Running
  · refine ⟨_, Job.execute_eq_success heap w th ex w3 hex hret hs, rfl, ?_, ?_⟩
    · intro _
      refine ⟨rfl, rfl, rfl, ?_⟩
      intro he hc
      show (ex.cleanup th (ex.end_ th (w3.setStatus Status_Success))).status = _
      rw [hc, he]; rfl
    · intro h; exact absurd hs h
  · refine ⟨_, Job.execute_eq_kept heap w th ex w3 hex hret hs, rfl, ?_, ?_⟩
    · intro h; exact absurd h hs
    · intro _
      refine ⟨rfl, rfl, ?_⟩
      intro he hc
      show (ex.cleanup th (ex.end_ th w3)).status = _
      rw [hc, he]

/-- Instance of C1 (amended): a new job run by an executor that does nothing ends as `Success`. -/
theorem Job.execute_returned_witness :
    ∃ r, Job.execute sampleHeap freshWorld 0 = some r ∧ r.rethrown = none ∧
      r.world.status = Status_Success ∧
      statusWrites r.trace = [Status_Running, Status_Success] := by
  obtain ⟨r, h1, h2, h3, _⟩ :=
    Job.execute_returned sampleHeap freshWorld 0 quietExecutor
      (freshWorld.setStatus Status_Running) rfl rfl
  obtain ⟨_, _, h5, h6⟩ := h3 rfl
  exact ⟨r, h1, h2, h6 (fun _ => rfl) (fun _ => rfl), h5⟩

/-- C2, as the claim states it, fails: the execute step throws `JobFailed` and
`Job::execute` stores `Failed`, but the executor's `end`, called after that
store, stores `Success`, and `Success` is the status after `Job::execute`;
likewise with `JobAborted` and a `cleanup` that stores `Success`. -/
theorem Job.execute_failed_replaced_by_end :
    (Job.execute storingHeap (sampleWorld Status_Queued (ExecutorPtr.object 2)) 0).map
      (fun r => (r.rethrown, statusWrites r.trace, r.world.status))
      = some (none, [Status_Running, Status_Failed], Status_Success) ∧
    (Job.execute storingHeap (sampleWorld Status_Queued (ExecutorPtr.object 3)) 0).map
      (fun r => (r.rethrown, statusWrites r.trace, r.world.status))
      = some (none, [Status_Running, Status_Aborted], Status_Success) := by
  decide

/-- C2, amended.  When the execute step throws `JobAborted` (resp. `JobFailed`), whatever
status the body had left, `Job::execute` returns normally (nothing is
rethrown), stores `Aborted` (resp. `Failed`), and then calls `end` and `cleanup`
on a state with that status; the status after `Job::execute` is that status
when `end` and `cleanup` leave the status alone. -/
theorem Job.execute_aborted_or_failed {ε : Type}
    (heap : ExecutorPtr → Option (Executor ε)) (w : World ε) (th : ThreadPtr)
    (ex : Executor ε) (e : Thrown) (w3 : World ε)
    (hex : deref heap w.job.executor = some ex)
    (hthrow : ex.execute th ((ex.begin th w).setStatus Status_Running)
      = (Outcome.threw e, w3))
    (he : e = Thrown.JobAborted ∨ e = Thrown.JobFailed) :
    ∃ r st, Job.execute heap w th = some r ∧ r.rethrown = none ∧
      (e = Thrown.JobAborted → st = Status_Aborted) ∧
      (e = Thrown.JobFailed → st = Status_Failed) ∧
      r.world = ex.cleanup th (ex.end_ th (w3.setStatus st)) ∧
      (w3.setStatus st).status = st ∧
      r.trace = [Event.begin w.job.executor th, Event.setStatus Status_Running,
        Event.execute w.job.executor th, Event.setStatus st, Event.assertFinished true,
        Event.end_ w.job.executor th, Event.cleanup w.job.executor th] ∧
      ((∀ v, (ex.end_ th v).status = v.status) →
        (∀ v, (ex.cleanup th v).status = v.status) → r.world.status = st) := by
  rcases he with rfl | rfl
  · refine ⟨_, Status_Aborted, Job.execute_eq_aborted heap w th ex w3 hex hthrow, rfl,
      fun _ => rfl, fun h => Thrown.noConfusion h, rfl, rfl, rfl, ?_⟩
    intro he hc
    show (ex.cleanup th (ex.end_ th (w3.setStatus Status_Aborted))).status = _
    rw [hc, he]; rfl
  · refine ⟨_, Status_Failed, Job.execute_eq_failed heap w th ex w3 hex hthrow, rfl,
      fun h => Thrown.noConfusion h, fun _ => rfl, rfl, rfl, rfl, ?_⟩
    intro he hc
    show (ex.cleanup th (ex.end_ th (w3.setStatus Status_Failed))).status = _
    rw [hc, he]; rfl

/-- Instance of C2 (amended): a body that stores `Success` and then throws `JobAborted` ends as
`Aborted`, and `end` and `cleanup` are the last two events. -/
theorem Job.execute_aborted_or_failed_witness :
    ∃ r, Job.execute sampleHeap (sampleWorld Status_Queued (ExecutorPtr.object 2)) 0
        = some r ∧ r.rethrown = none ∧ r.world.status = Status_Aborted ∧
      r.trace = [Event.begin (ExecutorPtr.object 2) 0, Event.setStatus Status_Running,
        Event.execute (ExecutorPtr.object 2) 0, Event.setStatus Status_Aborted,
        Event.assertFinished true, Event.end_ (ExecutorPtr.object 2) 0,
        Event.cleanup (ExecutorPtr.object 2) 0] := by
  obtain ⟨r, st, h1, h2, h3, _, _, _, h7, h8⟩ :=
    Job.execute_aborted_or_failed sampleHeap
      (sampleWorld Status_Queued (ExecutorPtr.object 2)) 0 abortingExecutor
      Thrown.JobAborted
      (((sampleWorld Status_Queued (ExecutorPtr.object 2)).setStatus
        Status_Running).setStatus Status_Success)
      rfl rfl (Or.inl rfl)
  have hst : st = Status_Aborted := h3 rfl
  subst hst
  exact ⟨r, h1, h2, h8 (fun _ => rfl) (fun _ => rfl), h7⟩

/-- C3.  When the execute step throws anything other than `JobAborted` and `JobFailed`,
`Job::execute` rethrows that same error, leaves the state as the step left it,
has stored no status but `Running`, and calls neither `end` nor `cleanup`. -/
theorem Job.execute_unexpected {ε : Type} (heap : ExecutorPtr → Option (Executor ε))
    (w : World ε) (th : ThreadPtr) (ex : Executor ε) (tag : Nat) (w3 : World ε)
    (hex : deref heap w.job.executor = some ex)
    (hthrow : ex.execute th ((ex.begin th w).setStatus Status_Running)
      = (Outcome.threw (Thrown.other tag), w3)) :
    ∃ r, Job.execute heap w th = some r ∧ r.rethrown = some (Thrown.other tag) ∧
      r.world = w3 ∧
      r.trace = [Event.begin w.job.executor th, Event.setStatus Status_Running,
        Event.execute w.job.executor th, Event.debugUncaught] ∧
      statusWrites r.trace = [Status_Running] ∧
      (∀ p t, Event.end_ p t ∉ r.trace ∧ Event.cleanup p t ∉ r.trace) := by
  refine ⟨_, Job.execute_eq_rethrown heap w th ex tag w3 hex hthrow, rfl, rfl, rfl, rfl, ?_⟩
  intro p t
  constructor <;> simp

/-- Instance of C3: an executor whose body throws an unknown error. -/
theorem Job.execute_unexpected_witness :
    ∃ r, Job.execute sampleHeap (sampleWorld Status_Queued (ExecutorPtr.object 4)) 0
        = some r ∧ r.rethrown = some (Thrown.other 7) ∧
      r.world.status = Status_Running ∧ statusWrites r.trace = [Status_Running] := by
  obtain ⟨r, h1, h2, h3, _, h5, _⟩ :=
    Job.execute_unexpected sampleHeap (sampleWorld Status_Queued (ExecutorPtr.object 4))
      0 crashingExecutor 7
      ((sampleWorld Status_Queued (ExecutorPtr.object 4)).setStatus Status_Running)
      rfl rfl
  exact ⟨r, h1, h2, by rw [h3]; rfl, h5⟩

/-- C4.  In a run whose execute step returns normally or throws `JobAborted` or
`JobFailed`, the trace is: `begin`, the store of `Running`, `execute`, at most
one further status store, the assertion check, `end`, `cleanup`; all four calls
go to the executor that was in the slot at entry (also when a step changes the
slot), each exactly once.  If a normally returning step left `Running` or a
finished status, the status handed to `end` is finished and the assertion
`status > Running` holds. -/
theorem Job.execute_call_order {ε : Type} (heap : ExecutorPtr → Option (Executor ε))
    (w : World ε) (th : ThreadPtr) (ex : Executor ε) (oc : Outcome) (w3 : World ε)
    (hex : deref heap w.job.executor = some ex)
    (hrun : ex.execute th ((ex.begin th w).setStatus Status_Running) = (oc, w3))
    (hoc : oc = Outcome.returned ∨ oc = Outcome.threw Thrown.JobAborted ∨
      oc = Outcome.threw Thrown.JobFailed) :
    ∃ r wrote holds w4, Job.execute heap w th = some r ∧
      r.trace = [Event.begin w.job.executor th, Event.setStatus Status_Running,
          Event.execute w.job.executor th] ++ wrote ++
        [Event.assertFinished holds, Event.end_ w.job.executor th,
          Event.cleanup w.job.executor th] ∧
      (wrote = [] ∨ ∃ s, wrote = [Event.setStatus s]) ∧
      executorCalls r.trace = [Event.begin w.job.executor th,
        Event.execute w.job.executor th, Event.end_ w.job.executor th,
        Event.cleanup w.job.executor th] ∧
      ((ex.begin th w).setStatus Status_Running).status = Status_Running ∧
      r.world = ex.cleanup th (ex.end_ th w4) ∧
      ((oc = Outcome.returned → w3.status = Status_Running ∨ w3.status.isFinished = true) →
        w4.status.isFinished = true ∧ holds = true) := by
  rcases hoc with rfl | rfl | rfl
  · by_cases hs : w3.status = Status_Running
    · refine ⟨_, [Event.setStatus Status_Success], true, w3.setStatus Status_Success,
        Job.execute_eq_success heap w th ex w3 hex hrun hs, rfl,
        Or.inr ⟨_, rfl⟩, rfl, rfl, rfl, fun _ => ⟨rfl, rfl⟩⟩
    · refine ⟨_, [], decide (Status.toInt w3.status > Status.toInt Status_Running), w3,
        Job.execute_eq_kept heap w th ex w3 hex hrun hs, rfl,
        Or.inl rfl, rfl, rfl, rfl, ?_⟩
      intro h
      rcases h rfl with h | h
      · exact absurd h hs
      · refine ⟨h, ?_⟩
        revert h
        cases w3.status <;> simp [Status.isFinished, Status.toInt]
  · exact ⟨_, [Event.setStatus Status_Aborted], true, w3.setStatus Status_Aborted,
      Job.execute_eq_aborted heap w th ex w3 hex hrun, rfl, Or.inr ⟨_, rfl⟩, rfl, rfl, rfl,
      fun _ => ⟨rfl, rfl⟩⟩
  · exact ⟨_, [Event.setStatus Status_Failed], true, w3.setStatus Status_Failed,
      Job.execute_eq_failed heap w th ex w3 hex hrun, rfl, Or.inr ⟨_, rfl⟩, rfl, rfl, rfl,
      fun _ => ⟨rfl, rfl⟩⟩

/-- Instance of C4: a wrapper at address 5 that takes itself out of the slot in `begin`
still receives all four calls. -/
theorem Job.execute_call_order_witness :
    ∃ r, Job.execute sampleHeap (sampleWorld Status_Queued (ExecutorPtr.object 5)) 3
        = some r ∧
      executorCalls r.trace = [Event.begin (ExecutorPtr.object 5) 3,
        Event.execute (ExecutorPtr.object 5) 3, Event.end_ (ExecutorPtr.object 5) 3,
        Event.cleanup (ExecutorPtr.object 5) 3] ∧
      Event.assertFinished true ∈ r.trace := by
  obtain ⟨r, wrote, holds, w4, h1, h2, _, h4, _, _, h7⟩ :=
    Job.execute_call_order sampleHeap (sampleWorld Status_Queued (ExecutorPtr.object 5))
      3 unchainingExecutor Outcome.returned
      ((unchainingExecutor.begin 3
        (sampleWorld Status_Queued (ExecutorPtr.object 5))).setStatus Status_Running)
      rfl rfl (Or.inl rfl)
  have hh : holds = true := (h7 (fun _ => Or.inl rfl)).2
  subst hh
  exact ⟨r, h1, h4, by rw [h2]; simp⟩

/-! ## Theorems: status writes -/

/-- C5, as the claim states it, fails: `Job::setStatus` on a job that is `Success`
stores `New`, and `Job::execute` on a job that is `Success` stores `Running`
(here the body then throws an unknown error, so `Running` is what remains). -/
theorem Job.terminal_status_overwritten :
    Job.isFinished (sampleWorld Status_Success (ExecutorPtr.object 4)).job = true ∧
    (Job.setStatus (sampleWorld Status_Success (ExecutorPtr.object 4)).job
      Status_New).status = Status_New ∧
    (Job.execute sampleHeap (sampleWorld Status_Success (ExecutorPtr.object 4)) 0).map
      (fun r => r.world.status) = some Status_Running := by
  decide

/-- C5, amended.  `Job::setStatus` stores its argument whatever the status was, so a
finished status is not protected.  What holds: after a normal return of the
execute step with a status other than `Running` (in particular a finished one)
`Job::execute` stores nothing more and hands that status to `end`; and
`dequeueElements` leaves the status as it is when the collection is not queued
or its `jobCounter` is zero. -/
theorem Job.status_kept_where_guarded {ε : Type}
    (heap : ExecutorPtr → Option (Executor ε)) (w : World ε) (th : ThreadPtr)
    (ex : Executor ε) (w3 : World ε) (c : Collection_Private) (locked : Bool)
    (hex : deref heap w.job.executor = some ex)
    (hret : ex.execute th ((ex.begin th w).setStatus Status_Running)
      = (Outcome.returned, w3))
    (hfin : w3.status.isFinished = true)
    (hc : c.api = none ∨ c.jobCounter = 0) :
    (∀ (d : Job_Private) (s : Status), (Job.setStatus d s).status = s) ∧
    (∃ r, Job.execute heap w th = some r ∧
      r.world = ex.cleanup th (ex.end_ th w3) ∧
      statusWrites r.trace = [Status_Running]) ∧
    (c.dequeueElements locked).status = c.status := by
  have hs : w3.status ≠ Status_Running := by
    intro h; rw [h] at hfin; exact absurd hfin (by decide)
  refine ⟨fun _ _ => rfl, ⟨_, Job.execute_eq_kept heap w th ex w3 hex hret hs, rfl, rfl⟩, ?_⟩
  obtain ⟨_, _, _, h4, h5⟩ := c.dequeueElements_spec locked
  by_cases hapi : c.api = none
  · rw [h4 hapi]
  · rcases hc with h | h
    · exact absurd h hapi
    · exact ((h5 hapi).2.2 h).2.2

/-- Instance of C5 (amended): a body that stores `Failed` and returns keeps `Failed`; a
dequeue of a collection whose counter is zero keeps its status. -/
theorem Job.status_kept_where_guarded_witness :
    (Job.execute sampleHeap (sampleWorld Status_Queued (ExecutorPtr.object 1)) 0).map
      (fun r => r.world.status) = some Status_Failed ∧
    ((queuedCollection 0).dequeueElements true).status = (queuedCollection 0).status := by
  obtain ⟨_, ⟨r, h1, h2, _⟩, h3⟩ :=
    Job.status_kept_where_guarded sampleHeap
      (sampleWorld Status_Queued (ExecutorPtr.object 1)) 0 selfFailingExecutor
      (((sampleWorld Status_Queued (ExecutorPtr.object 1)).setStatus
        Status_Running).setStatus Status_Failed)
      (queuedCollection 0) true rfl rfl rfl (Or.inr rfl)
  refine ⟨?_, h3⟩
  rw [h1]
  show some r.world.status = _
  rw [h2]; rfl

/-- C6, as the claim states it, fails: the statuses stored by the constructor and by
`Job::blockingExecute` on a new job are `New, Running, Success`, and that is not
a sequence of the spec's chain (`Queued` is skipped). -/
theorem Job.blockingExecute_skips_queued :
    (Job.blockingExecute sampleHeap freshWorld).map
      (fun r => (Job.Job false).2 ++ statusWrites r.trace)
      = some [Status_New, Status_Running, Status_Success] ∧
    followsSpecChain [Status_New, Status_Running, Status_Success] = false := by
  decide

/-- C6, amended.  On a newly constructed job, the statuses stored by the constructor
and by `Job::execute` (so also by `Job::blockingExecute`, which is
`Job::execute` with a null thread) are `New`, `Running` and then at most one
of `Success`, `Failed`, `Aborted`: the chain of the spec without `Queued`. -/
theorem Job.fresh_execute_status_writes {ε : Type}
    (heap : ExecutorPtr → Option (Executor ε)) (debug : Bool) (env : ε)
    (th : ThreadPtr) (ex : Executor ε)
    (hex : deref heap (Job.Job debug).1.executor = some ex) :
    Job.blockingExecute heap { job := (Job.Job debug).1, env := env }
      = Job.execute heap { job := (Job.Job debug).1, env := env } 0 ∧
    ∃ r tail, Job.execute heap { job := (Job.Job debug).1, env := env } th = some r ∧
      (Job.Job debug).2 ++ statusWrites r.trace = Status_New :: Status_Running :: tail ∧
      (tail = [] ∨ ∃ t, t.isFinished = true ∧ tail = [t]) := by
  refine ⟨rfl, ?_⟩
  rcases hrun : ex.execute th
    ((ex.begin th { job := (Job.Job debug).1, env := env }).setStatus Status_Running)
    with ⟨oc, w3⟩
  rcases oc with _ | (_ | _ | tag)
  · by_cases hs : w3.status = Status_Running
    · exact ⟨_, [Status_Success], Job.execute_eq_success heap _ th ex w3 hex hrun hs, rfl,
        Or.inr ⟨Status_Success, rfl, rfl⟩⟩
    · exact ⟨_, [], Job.execute_eq_kept heap _ th ex w3 hex hrun hs, rfl, Or.inl rfl⟩
  · exact ⟨_, [Status_Aborted], Job.execute_eq_aborted heap _ th ex w3 hex hrun, rfl,
      Or.inr ⟨Status_Aborted, rfl, rfl⟩⟩
  · exact ⟨_, [Status_Failed], Job.execute_eq_failed heap _ th ex w3 hex hrun, rfl,
      Or.inr ⟨Status_Failed, rfl, rfl⟩⟩
  · exact ⟨_, [], Job.execute_eq_rethrown heap _ th ex tag w3 hex hrun, rfl, Or.inl rfl⟩

/-- Instance of C6 (amended): a new job of the debug build, run by its debug wrapper. -/
theorem Job.fresh_execute_status_writes_witness :
    ∃ r tail, Job.execute sampleHeap { job := (Job.Job true).1, env := () } 0 = some r ∧
      (Job.Job true).2 ++ statusWrites r.trace = Status_New :: Status_Running :: tail ∧
      (tail = [] ∨ ∃ t, t.isFinished = true ∧ tail = [t]) :=
  (Job.fresh_execute_status_writes sampleHeap true () 0 quietExecutor rfl).2

/-! ## Theorems: collections -/

/-- Running a call sequence that starts with a call. -/
theorem Collection_Private.run_cons (s t : Collection_Private) (op : Op) (ops : List Op)
    (h : s.step op = some t) : s.run (op :: ops) = t.run ops := by
  simp [Collection_Private.run, h]

/-- A run of notifications that does not exceed the counter: each one decrements once,
and `finalCleanup` is entered exactly by the one that reaches zero. -/
theorem Collection_Private.run_notifications (jobs : List (JobPointer × ThreadPtr)) :
    ∀ (s : Collection_Private) (c : Nat),
      (s.selfIsExecuting = true → s.api ≠ none) →
      s.counterBeforeDecrement = c → (c : Int) < 2147483648 → jobs.length ≤ c →
      ∃ t, s.run (notifications jobs) = some t ∧
        t.counterBeforeDecrement = (c : Int) - jobs.length ∧
        (jobs ≠ [] → t.selfIsExecuting = false) ∧
        t.decrements = s.decrements + jobs.length ∧
        t.finalCleanupRuns
          = s.finalCleanupRuns + (if jobs ≠ [] ∧ jobs.length = c then 1 else 0) := by
  induction jobs with
  | nil =>
    intro s c _ hc _ _
    exact ⟨s, rfl, by simp [hc], fun h => absurd rfl h, by simp, by simp⟩
  | cons jt rest ih =>
    intro s c hq hc h31 hlen
    simp only [List.length_cons] at hlen
    obtain ⟨t, ht, hcnt, hself, _, hdec, hzero, hnz⟩ :=
      s.elementFinished_spec jt.1 jt.2 hq
    have hval : int32 (s.counterBeforeDecrement - 1) = (c : Int) - 1 := by
      rw [hc]; exact int32_of_range _ (by omega) (by omega)
    have htc : t.counterBeforeDecrement = ((c - 1 : Nat) : Int) := by
      simp only [Collection_Private.counterBeforeDecrement, hself]
      rw [hcnt, hval]; simp; omega
    obtain ⟨u, hu, hucnt, huself, hudec, huruns⟩ :=
      ih t (c - 1) (fun h => by rw [hself] at h; cases h) htc (by omega) (by omega)
    refine ⟨u, ?_, ?_, fun _ => ?_, ?_, ?_⟩
    · show s.run (Op.elementFinished jt.1 jt.2 :: notifications rest) = some u
      rw [s.run_cons t (Op.elementFinished jt.1 jt.2) _ ht]; exact hu
    · rw [hucnt]; simp only [List.length_cons]; push_cast; omega
    · cases rest with
      | nil => simp [notifications, Collection_Private.run] at hu; rw [← hu]; exact hself
      | cons a b => exact huself (by simp)
    · rw [hudec, hdec]; simp only [List.length_cons]; omega
    · rw [huruns]
      by_cases hz : c = 1
      · have hr : rest = [] := by
          apply List.eq_nil_of_length_eq_zero; omega
        subst hr
        rw [(hzero (by rw [hval]; omega)).2.1]
        simp [hz]
      · rw [(hnz (by rw [hval]; omega)).2.1]
        by_cases hr : rest = []
        · subst hr; simp; omega
        · have : (rest.length = c - 1) ↔ (rest.length + 1 = c) := by omega
          simp [hr, this]

/-- C7.  For a queued collection with `n` children whose own execution is completing
(`selfIsExecuting` set), with `n + 1` representable in an `int`: the collection's
own notification stores `n + 1` into `jobCounter` (in `enqueueElements`); and
for every `k` from `1` to `n + 1`, the first `k` notifications return, have
decremented `jobCounter` `k` times in all and leave `jobCounter = n + 1 - k`;
`finalCleanup` has been entered once if `k = n + 1` and not at all if `k` is
smaller. -/
theorem Collection_Private.notifications_decrement_once (s : Collection_Private)
    (jobs : List (JobPointer × ThreadPtr))
    (hself : s.selfIsExecuting = true) (hq : s.api ≠ none)
    (hn : (s.elements.length : Int) + 1 < 2147483648)
    (h1 : 1 ≤ jobs.length) (h2 : jobs.length ≤ s.elements.length + 1) :
    (∃ t0, s.enqueueElements = some t0 ∧
      t0.jobCounter = (s.elements.length : Int) + 1) ∧
    (∀ job thread, ∃ t1, s.elementFinished job thread = some t1 ∧
      CEvent.counterStore ((s.elements.length : Int) + 1) ∈ t1.trace) ∧
    ∃ t, s.run (notifications jobs) = some t ∧
      t.jobCounter = (s.elements.length : Int) + 1 - jobs.length ∧
      t.decrements = s.decrements + jobs.length ∧
      t.finalCleanupRuns
        = s.finalCleanupRuns + (if jobs.length = s.elements.length + 1 then 1 else 0) := by
  have h32 : int32 ((s.elements.length : Int) + 1) = (s.elements.length : Int) + 1 :=
    int32_of_range _ (by omega) (by omega)
  obtain ⟨q, hq'⟩ := Option.ne_none_iff_exists'.1 hq
  refine ⟨⟨_, s.enqueueElements_spec q hq', h32⟩, ?_, ?_⟩
  · intro job thread
    obtain ⟨t1, ht1, hmem, _⟩ := s.elementFinished_stores_count job thread q hself hq'
    rw [h32] at hmem
    exact ⟨t1, ht1, hmem⟩
  · have hc : s.counterBeforeDecrement = ((s.elements.length + 1 : Nat) : Int) := by
      simp only [Collection_Private.counterBeforeDecrement, hself, if_true, h32]
      push_cast; rfl
    obtain ⟨t, ht, htc, htself, htdec, htruns⟩ :=
      Collection_Private.run_notifications jobs s (s.elements.length + 1)
        (fun _ => hq) hc (by push_cast; omega) h2
    have hne : jobs ≠ [] := by
      intro h; rw [h] at h1; simp at h1
    refine ⟨t, ht, ?_, htdec, ?_⟩
    · have := htself hne
      simp only [Collection_Private.counterBeforeDecrement, this] at htc
      rw [if_neg (by simp)] at htc
      rw [htc]; push_cast; rfl
    · rw [htruns]; simp [hne]

/-- Instance of C7: the three notifications of a collection with two children. -/
theorem Collection_Private.notifications_decrement_once_witness :
    ∃ t, sampleCollection.run
        (notifications [(some 0, 1), (some 1, 1), (some 2, 2)]) = some t ∧
      t.jobCounter = 0 ∧ t.decrements = 3 ∧ t.finalCleanupRuns = 1 := by
  obtain ⟨_, _, t, h1, h2, h3, h4⟩ :=
    Collection_Private.notifications_decrement_once sampleCollection
      [(some 0, 1), (some 1, 1), (some 2, 2)] rfl (by decide) (by decide) (by decide)
      (by decide)
  exact ⟨t, h1, h2, h3, h4⟩

/-- C8, the code at the failing input: an empty queued collection whose own body has
failed has status `Failed` when its notification brings `jobCounter` to zero;
`finalCleanup` then frees the policy, nulls the queue reference and stores
`Success` over `Failed`. -/
theorem Collection_Private.finalCleanup_overwrites_failed :
    failedEmptyCollection.status = Status_Failed ∧
    (failedEmptyCollection.elementFinished (some 0) 1).map
      (fun t => (t.finalCleanupRuns, t.jobCounter, t.api, t.status))
      = some (1, 0, none, Status_Success) ∧
    failedEmptyCollection.finalCleanup.status = Status_Success ∧
    CEvent.policyFree 5 (some 0) ∈ failedEmptyCollection.finalCleanup.trace := by
  decide

/-- C9, as the claim states it, fails both ways: with `jobCounter = 2` the dequeue
enters `finalCleanup` itself; with `jobCounter = 0` the dequeue does not enter
`finalCleanup`. -/
theorem Collection_Private.dequeueElements_cleanup_reversed :
    (queuedCollection 2).api = some 9 ∧ (queuedCollection 2).finalCleanupRuns = 0 ∧
    ((queuedCollection 2).dequeueElements false).finalCleanupRuns = 1 ∧
    (queuedCollection 0).api = some 9 ∧ (queuedCollection 0).finalCleanupRuns = 0 ∧
    ((queuedCollection 0).dequeueElements false).finalCleanupRuns = 0 := by
  decide

/-- C9, amended.  On a queued collection: if `jobCounter` is not zero, `dequeueElements`
sets it to zero and enters `finalCleanup` itself, once (the queue reference is
null afterwards); if `jobCounter` is zero, `dequeueElements` does not enter
`finalCleanup` and keeps the queue reference. -/
theorem Collection_Private.dequeueElements_cleanup (s : Collection_Private)
    (locked : Bool) (hq : s.api ≠ none) :
    (s.jobCounter ≠ 0 →
      (s.dequeueElements locked).finalCleanupRuns = s.finalCleanupRuns + 1 ∧
      (s.dequeueElements locked).jobCounter = 0 ∧
      (s.dequeueElements locked).api = none) ∧
    (s.jobCounter = 0 →
      (s.dequeueElements locked).finalCleanupRuns = s.finalCleanupRuns ∧
      (s.dequeueElements locked).jobCounter = 0 ∧
      (s.dequeueElements locked).api = s.api) := by
  obtain ⟨_, _, _, _, h5⟩ := s.dequeueElements_spec locked
  obtain ⟨hc0, hnz, hz⟩ := h5 hq
  constructor
  · intro hne
    obtain ⟨hapi, hruns, _⟩ := hnz hne
    exact ⟨hruns, hc0, hapi⟩
  · intro h0
    obtain ⟨hapi, hruns, _⟩ := hz h0
    exact ⟨hruns, hc0, hapi⟩

/-- Instance of C9 (amended): a dequeue while two notifications are outstanding. -/
theorem Collection_Private.dequeueElements_cleanup_witness :
    ((queuedCollection 2).dequeueElements true).finalCleanupRuns = 1 ∧
    ((queuedCollection 2).dequeueElements true).jobCounter = 0 ∧
    ((queuedCollection 2).dequeueElements true).api = none :=
  have h := (Collection_Private.dequeueElements_cleanup (queuedCollection 2) true
    (by decide)).1 (by decide)
  ⟨h.1, h.2.1, h.2.2⟩

/-- A dequeue keeps the accounting: before the first notification the counter is zero
and nothing happens; while notifications are outstanding the dequeue enters
`finalCleanup`; after `finalCleanup` the dequeue returns at once. -/
theorem Collection_Private.accounting_dequeueElements (n base done : Nat)
    (s : Collection_Private) (locked : Bool) (h : s.accounting n base done) :
    (s.dequeueElements locked).accounting n base done := by
  obtain ⟨h1, h2, _, h4, h5⟩ := s.dequeueElements_spec locked
  obtain ⟨hlen, hphase⟩ := h
  refine ⟨by rw [h2]; exact hlen, ?_⟩
  rcases hphase with ⟨hd, hself, hq, hc, hr⟩ | ⟨hd1, hdn, hself, hq, hc, hr⟩ |
      ⟨hd1, hself, hq, hlo, hhi, hr⟩
  · obtain ⟨hc0, _, hz⟩ := h5 hq
    obtain ⟨hapi, hruns, _⟩ := hz hc
    exact Or.inl ⟨hd, by rw [h1]; exact hself, by rw [hapi]; exact hq, hc0,
      by rw [hruns]; exact hr⟩
  · obtain ⟨hc0, hnz, _⟩ := h5 hq
    obtain ⟨hapi, hruns, _⟩ := hnz (by rw [hc]; omega)
    exact Or.inr (Or.inr ⟨hd1, by rw [h1]; exact hself, hapi, by rw [hc0]; omega,
      by rw [hc0], by rw [hruns, hr]⟩)
  · rw [h4 hq]
    exact Or.inr (Or.inr ⟨hd1, hself, hq, hlo, hhi, hr⟩)

/-- A notification keeps the accounting and advances it by one, as long as no more than
`n + 1` notifications are made. -/
theorem Collection_Private.accounting_elementFinished (n base done : Nat)
    (s : Collection_Private) (job : JobPointer) (thread : ThreadPtr)
    (hn : (n : Int) + 1 < 2147483648) (hdone : done ≤ n)
    (h : s.accounting n base done) :
    ∃ t, s.elementFinished job thread = some t ∧ t.accounting n base (done + 1) := by
  obtain ⟨hlen, hphase⟩ := h
  rcases hphase with ⟨hd, hself, hq, hc, hr⟩ | ⟨hd1, hdn, hself, hq, hc, hr⟩ |
      ⟨hd1, hself, hq, hlo, hhi, hr⟩
  · obtain ⟨t, ht, hcnt, htself, htel, _, hzero, hnz⟩ :=
      s.elementFinished_spec job thread (fun _ => hq)
    have hval : int32 (s.counterBeforeDecrement - 1) = (n : Int) := by
      simp only [Collection_Private.counterBeforeDecrement, hself, if_true, hlen]
      rw [int32_of_range ((n : Int) + 1) (by omega) (by omega)]
      rw [int32_of_range ((n : Int) + 1 - 1) (by omega) (by omega)]; omega
    refine ⟨t, ht, by rw [htel]; exact hlen, ?_⟩
    by_cases hz : n = 0
    · obtain ⟨hapi, hruns, _⟩ := hzero (by rw [hval, hz]; rfl)
      exact Or.inr (Or.inr ⟨by omega, htself, hapi, by rw [hcnt, hval]; omega,
        by rw [hcnt, hval, hz]; simp, by rw [hruns, hr]⟩)
    · obtain ⟨hapi, hruns, _⟩ := hnz (by rw [hval]; omega)
      exact Or.inr (Or.inl ⟨by omega, by omega, htself, by rw [hapi]; exact hq,
        by rw [hcnt, hval, hd]; push_cast; omega, by rw [hruns, hr]⟩)
  · obtain ⟨t, ht, hcnt, htself, htel, _, hzero, hnz⟩ :=
      s.elementFinished_spec job thread (fun _ => hq)
    have hval : int32 (s.counterBeforeDecrement - 1) = (n : Int) - done := by
      simp only [Collection_Private.counterBeforeDecrement, hself, hc]
      rw [if_neg (by simp)]
      rw [int32_of_range ((n : Int) + 1 - done - 1) (by omega) (by omega)]; omega
    refine ⟨t, ht, by rw [htel]; exact hlen, ?_⟩
    by_cases hz : done = n
    · obtain ⟨hapi, hruns, _⟩ := hzero (by rw [hval, hz]; omega)
      exact Or.inr (Or.inr ⟨by omega, htself, hapi, by rw [hcnt, hval]; push_cast; omega,
        by rw [hcnt, hval]; omega, by rw [hruns, hr]⟩)
    · obtain ⟨hapi, hruns, _⟩ := hnz (by rw [hval]; omega)
      exact Or.inr (Or.inl ⟨by omega, by omega, htself, by rw [hapi]; exact hq,
        by rw [hcnt, hval]; push_cast; omega, by rw [hruns, hr]⟩)
  · obtain ⟨t, ht, hcnt, htself, htel, _, _, hnz⟩ :=
      s.elementFinished_spec job thread (fun h => by rw [hself] at h; cases h)
    have hval : int32 (s.counterBeforeDecrement - 1) = s.jobCounter - 1 := by
      simp only [Collection_Private.counterBeforeDecrement, hself]
      rw [if_neg (by simp)]
      apply int32_of_range <;> omega
    obtain ⟨hapi, hruns, _⟩ := hnz (by rw [hval]; omega)
    exact ⟨t, ht, by rw [htel]; exact hlen,
      Or.inr (Or.inr ⟨by omega, htself, by rw [hapi]; exact hq,
        by rw [hcnt, hval]; push_cast; omega, by rw [hcnt, hval]; omega,
        by rw [hruns, hr]⟩)⟩

/-- Every interleaving of at most `n + 1` notifications with dequeues returns and
keeps the accounting. -/
theorem Collection_Private.accounting_run (n base : Nat) (hn : (n : Int) + 1 < 2147483648)
    (ops : List Op) :
    ∀ (s : Collection_Private) (done : Nat), s.accounting n base done →
      done + notificationCount ops ≤ n + 1 →
      ∃ t, s.run ops = some t ∧ t.accounting n base (done + notificationCount ops) := by
  induction ops with
  | nil => intro s done h _; exact ⟨s, rfl, by simpa [notificationCount] using h⟩
  | cons op rest ih =>
    intro s done h hle
    cases op with
    | elementFinished job thread =>
      have hcount : notificationCount (Op.elementFinished job thread :: rest)
          = notificationCount rest + 1 := by
        simp [notificationCount, Op.isNotification]
      rw [hcount] at hle ⊢
      obtain ⟨t, ht, hacc⟩ :=
        s.accounting_elementFinished n base done job thread hn (by omega) h
      obtain ⟨u, hu, huacc⟩ := ih t (done + 1) hacc (by omega)
      refine ⟨u, ?_, ?_⟩
      · rw [s.run_cons t (Op.elementFinished job thread) rest ht]; exact hu
      · have e : done + (notificationCount rest + 1) = done + 1 + notificationCount rest := by
          omega
        rw [e]; exact huacc
    | dequeueElements locked =>
      have hcount : notificationCount (Op.dequeueElements locked :: rest)
          = notificationCount rest := by
        simp [notificationCount, Op.isNotification]
      rw [hcount] at hle ⊢
      obtain ⟨u, hu, huacc⟩ :=
        ih (s.dequeueElements locked) done
          (s.accounting_dequeueElements n base done locked h) hle
      exact ⟨u, by rw [s.run_cons _ (Op.dequeueElements locked) rest rfl]; exact hu, huacc⟩

/-- C10.  A queued collection with `n` children whose own execution is completing
(`selfIsExecuting` set, `jobCounter` still the constructor's zero, `n + 1`
representable in an `int`): every sequence of calls that contains `n + 1`
completion notifications and any number of dequeues, in any order, returns
and has entered `finalCleanup` exactly once; and after every initial part of
such a sequence `finalCleanup` has been entered at most once. -/
theorem Collection_Private.finalCleanup_exactly_once (s : Collection_Private)
    (ops : List Op) (hself : s.selfIsExecuting = true) (hq : s.api ≠ none)
    (h0 : s.jobCounter = 0) (hn : (s.elements.length : Int) + 1 < 2147483648)
    (hops : notificationCount ops = s.elements.length + 1) :
    (∃ t, s.run ops = some t ∧ t.finalCleanupRuns = s.finalCleanupRuns + 1) ∧
    ∀ k, ∃ t, s.run (ops.take k) = some t ∧
      t.finalCleanupRuns ≤ s.finalCleanupRuns + 1 := by
  have hstart : s.accounting s.elements.length s.finalCleanupRuns 0 :=
    ⟨rfl, Or.inl ⟨rfl, hself, hq, h0, rfl⟩⟩
  constructor
  · obtain ⟨t, ht, _, hphase⟩ :=
      Collection_Private.accounting_run s.elements.length s.finalCleanupRuns hn ops s 0
        hstart (by omega)
    refine ⟨t, ht, ?_⟩
    rcases hphase with ⟨hd, _⟩ | ⟨_, hdn, _⟩ | ⟨_, _, _, _, _, hr⟩
    · omega
    · omega
    · exact hr
  · intro k
    have hk : notificationCount (ops.take k) ≤ s.elements.length + 1 := by
      have hsub : (ops.take k).Sublist ops := List.take_sublist k ops
      have := hsub.countP_le Op.isNotification
      unfold notificationCount at hops ⊢
      omega
    obtain ⟨t, ht, _, hphase⟩ :=
      Collection_Private.accounting_run s.elements.length s.finalCleanupRuns hn
        (ops.take k) s 0 hstart (by omega)
    refine ⟨t, ht, ?_⟩
    rcases hphase with ⟨_, _, _, _, hr⟩ | ⟨_, _, _, _, _, hr⟩ | ⟨_, _, _, _, _, hr⟩ <;>
      omega

/-- Instance of C10: a dequeue before, between and after the three notifications of a
collection with two children. -/
theorem Collection_Private.finalCleanup_exactly_once_witness :
    ∃ t, sampleCollection.run
        [Op.dequeueElements false, Op.elementFinished (some 0) 1,
          Op.dequeueElements true, Op.elementFinished (some 1) 1,
          Op.elementFinished (some 2) 2, Op.dequeueElements false] = some t ∧
      t.finalCleanupRuns = 1 :=
  (Collection_Private.finalCleanup_exactly_once sampleCollection
    [Op.dequeueElements false, Op.elementFinished (some 0) 1,
      Op.dequeueElements true, Op.elementFinished (some 1) 1,
      Op.elementFinished (some 2) 2, Op.dequeueElements false]
    rfl (by decide) rfl (by decide) (by decide)).1

/-! ## Theorems: one notification, start notifications, enqueue -/

/-- C11.  A queued collection without children whose own execution is completing: its
single notification returns, stores `1` into `jobCounter`, hands the empty
vector to the queue, decrements to `0` (the assertion on the remaining jobs
holds), and then runs `finalCleanup`, emits the collection's `end`, unlocks and
clears the self-handle; afterwards `jobCounter = 0`, the status is `Success`,
the queue reference and the self-handle are null. -/
theorem Collection_Private.empty_collection_completes (s : Collection_Private)
    (job : JobPointer) (thread : ThreadPtr) (q : Nat)
    (hel : s.elements = []) (hself : s.selfIsExecuting = true) (hq : s.api = some q) :
    ∃ t, s.elementFinished job thread = some t ∧
      t.trace = s.trace ++
        [CEvent.lock, CEvent.assertSelfNotNull s.self.isSome, CEvent.counterStore 1,
          CEvent.enqueue q [], CEvent.assertStarted (decide (s.jobsStarted ≥ 0)),
          CEvent.counterAdd (-1), CEvent.assertRemaining true] ++
        s.completionEvents thread ∧
      t.jobCounter = 0 ∧ t.status = Status_Success ∧ t.api = none ∧ t.self = none ∧
      t.selfIsExecuting = false ∧ t.finalCleanupRuns = s.finalCleanupRuns + 1 := by
  have h1 : int32 1 = 1 := by decide
  have h0 : int32 0 = 0 := by decide
  have hc := count_policyFree s.queuePolicies s.self CEvent.finalCleanup (by intro p; simp)
  simp [Collection_Private.elementFinished, Collection_Private.enqueueElements,
    Collection_Private.prepareToEnqueueElements, Collection_Private.processCompletedElement,
    Collection_Private.finalCleanup, Collection_Private.freeQueuePolicyResources,
    Collection_Private.log, Collection_Private.completionEvents,
    Collection_Private.finalCleanupRuns, hel, hself, hq, h1, h0, hc]

/-- Instance of C11: the single notification of an empty collection. -/
theorem Collection_Private.empty_collection_completes_witness :
    ∃ t, failedEmptyCollection.elementFinished (some 0) 1 = some t ∧
      t.jobCounter = 0 ∧ t.status = Status_Success ∧ t.api = none ∧ t.self = none := by
  obtain ⟨t, h1, _, h3, h4, h5, h6, _⟩ :=
    Collection_Private.empty_collection_completes failedEmptyCollection (some 0) 1 9
      rfl rfl rfl
  exact ⟨t, h1, h3, h4, h5, h6⟩

/-- What one `elementStarted` notification does. -/
theorem Collection_Private.elementStarted_spec (s : Collection_Private)
    (job : JobPointer) (thread : ThreadPtr) :
    (s.elementStarted job thread).jobsStarted = int32 (s.jobsStarted + 1) ∧
    (s.elementStarted job thread).beginCalls
      = s.beginCalls + (if s.jobsStarted = 0 then 1 else 0) ∧
    (s.elementStarted job thread).executor = s.executor ∧
    (s.elementStarted job thread).self = s.self ∧
    (s.elementStarted job thread).trace = s.trace ++
      ([CEvent.lock, CEvent.assertSelfNotNull s.self.isSome, CEvent.startedAdd 1] ++
        (if s.jobsStarted = 0 then [CEvent.defaultBegin s.executor s.self thread] else []) ++
        [CEvent.unlock]) := by
  by_cases h : s.jobsStarted = 0 <;>
    simp [Collection_Private.elementStarted, Collection_Private.log,
      Collection_Private.beginCalls, CEvent.isDefaultBegin, h]

/-- A run of `elementStarted` notifications from any value of `jobsStarted` that stays
in the range of an `int`. -/
theorem Collection_Private.startAll_spec (jobs : List (JobPointer × ThreadPtr)) :
    ∀ (s : Collection_Private) (c : Nat), s.jobsStarted = c →
      (c : Int) + jobs.length < 2147483648 →
      (s.startAll jobs).jobsStarted = (c : Int) + jobs.length ∧
      (s.startAll jobs).beginCalls
        = s.beginCalls + (if c = 0 ∧ jobs ≠ [] then 1 else 0) := by
  induction jobs with
  | nil => intro s c hc _; simp [Collection_Private.startAll, hc]
  | cons jt rest ih =>
    intro s c hc hlt
    simp only [List.length_cons, Nat.cast_add, Nat.cast_one] at hlt
    obtain ⟨h1, h2, _⟩ := s.elementStarted_spec jt.1 jt.2
    have hval : (s.elementStarted jt.1 jt.2).jobsStarted = ((c + 1 : Nat) : Int) := by
      rw [h1, hc, int32_of_range ((c : Int) + 1) (by omega) (by omega)]
      push_cast; rfl
    obtain ⟨h3, h4⟩ := ih (s.elementStarted jt.1 jt.2) (c + 1) hval (by push_cast; omega)
    refine ⟨?_, ?_⟩
    · show ((s.elementStarted jt.1 jt.2).startAll rest).jobsStarted = _
      rw [h3]; simp only [List.length_cons]; push_cast; omega
    · show ((s.elementStarted jt.1 jt.2).startAll rest).beginCalls = _
      rw [h4, h2, hc]
      by_cases hz : c = 0
      · subst hz; simp
      · have : (c : Int) ≠ 0 := by exact_mod_cast hz
        simp [hz, this]

/-- C12.  On a collection whose `jobsStarted` is `0`, for every sequence of
`elementStarted` notifications (fewer than `2^31`): afterwards `jobsStarted` is
the number of notifications, and the executor's `defaultBegin` has been called
once if there was a notification and not at all otherwise; the call is made by
the first notification, on the self-handle, with that notification's thread. -/
theorem Collection_Private.begin_emitted_once (s : Collection_Private)
    (jobs : List (JobPointer × ThreadPtr)) (h0 : s.jobsStarted = 0)
    (hlen : (jobs.length : Int) < 2147483648) :
    (s.startAll jobs).jobsStarted = jobs.length ∧
    (s.startAll jobs).beginCalls = s.beginCalls + (if jobs = [] then 0 else 1) ∧
    ∀ jt rest, jobs = jt :: rest →
      (s.elementStarted jt.1 jt.2).trace = s.trace ++
        [CEvent.lock, CEvent.assertSelfNotNull s.self.isSome, CEvent.startedAdd 1,
          CEvent.defaultBegin s.executor s.self jt.2, CEvent.unlock] ∧
      (s.elementStarted jt.1 jt.2).beginCalls = s.beginCalls + 1 ∧
      (s.startAll jobs).beginCalls = (s.elementStarted jt.1 jt.2).beginCalls := by
  obtain ⟨h1, h2⟩ := Collection_Private.startAll_spec jobs s 0 (by simpa using h0)
    (by simpa using hlen)
  refine ⟨by simpa using h1, ?_, ?_⟩
  · rw [h2]; by_cases hj : jobs = [] <;> simp [hj]
  · intro jt rest hj
    obtain ⟨_, h4, _, _, h7⟩ := s.elementStarted_spec jt.1 jt.2
    rw [h0] at h4
    refine ⟨by rw [h7]; simp [h0], by simpa using h4, ?_⟩
    rw [h2, hj]; simpa using h4.symm

/-- Instance of C12: three start notifications on a new collection. -/
theorem Collection_Private.begin_emitted_once_witness :
    (sampleCollection.startAll [(some 0, 1), (some 1, 2), (some 2, 1)]).jobsStarted = 3 ∧
    (sampleCollection.startAll [(some 0, 1), (some 1, 2), (some 2, 1)]).beginCalls = 1 := by
  obtain ⟨h1, h2, _⟩ :=
    Collection_Private.begin_emitted_once sampleCollection
      [(some 0, 1), (some 1, 2), (some 2, 1)] rfl (by decide)
  exact ⟨h1, h2⟩

/-- Policy calls are no enqueue. -/
theorem countP_isEnqueue_policyFree (ps : List QueuePolicyPtr) (job : JobPointer) :
    (ps.map (fun p => CEvent.policyFree p job)).countP CEvent.isEnqueue = 0 := by
  induction ps with
  | nil => rfl
  | cons p rest _ => simp [List.countP_cons, CEvent.isEnqueue]

/-- Dequeue requests are no enqueue. -/
theorem countP_isEnqueue_dequeue (es : List JobPointer) (q : Nat) (locked : Bool) :
    (es.map (fun x => if locked then CEvent.dequeue_p q x else CEvent.dequeue q x)).countP
      CEvent.isEnqueue = 0 := by
  induction es with
  | nil => rfl
  | cons x rest _ => cases locked <;> simp [List.countP_cons, CEvent.isEnqueue]

/-- One completion notification and the queue: the collection's own notification hands
the element vector, as `prepareToEnqueueElements` left it, to the queue in one
call, right after storing the counter and before anything else; no other
notification enqueues. -/
theorem Collection_Private.elementFinished_enqueue_spec (s : Collection_Private)
    (job : JobPointer) (thread : ThreadPtr)
    (hq : s.selfIsExecuting = true → s.api ≠ none) :
    ∃ t, s.elementFinished job thread = some t ∧ t.selfIsExecuting = false ∧
      t.enqueueCalls = s.enqueueCalls + (if s.selfIsExecuting = true then 1 else 0) ∧
      (∀ q, s.selfIsExecuting = true → s.api = some q →
        ∃ rest, t.trace = s.trace ++
          ([CEvent.lock, CEvent.assertSelfNotNull s.self.isSome,
            CEvent.counterStore (int32 ((s.elements.length : Int) + 1)),
            CEvent.enqueue q s.prepareToEnqueueElements.elements] ++ rest) ∧
          rest.countP CEvent.isEnqueue = 0) := by
  have hp := countP_isEnqueue_policyFree s.queuePolicies s.self
  have e : ∀ x : Int, x + -1 = x - 1 := fun x => by omega
  cases hself : s.selfIsExecuting
  · by_cases hz : int32 (s.jobCounter - 1) = 0
    · simp [Collection_Private.elementFinished, Collection_Private.processCompletedElement,
        Collection_Private.finalCleanup, Collection_Private.freeQueuePolicyResources,
        Collection_Private.log, Collection_Private.enqueueCalls, CEvent.isEnqueue,
        hself, hz, hp, e]
    · simp [Collection_Private.elementFinished, Collection_Private.processCompletedElement,
        Collection_Private.log, Collection_Private.enqueueCalls, CEvent.isEnqueue,
        hself, hz, e]
  · obtain ⟨q, hq⟩ := Option.ne_none_iff_exists'.1 (hq hself)
    by_cases hz : int32 (int32 ((s.elements.length : Int) + 1) - 1) = 0
    · simp [Collection_Private.elementFinished, Collection_Private.processCompletedElement,
        Collection_Private.finalCleanup, Collection_Private.freeQueuePolicyResources,
        Collection_Private.log, Collection_Private.enqueueCalls, CEvent.isEnqueue,
        Collection_Private.enqueueElements, Collection_Private.prepareToEnqueueElements,
        hself, hz, hq, hp, e]
      rintro a (⟨p, _, rfl⟩ | rfl | rfl | rfl | rfl) <;> rfl
    · simp [Collection_Private.elementFinished, Collection_Private.processCompletedElement,
        Collection_Private.log, Collection_Private.enqueueCalls, CEvent.isEnqueue,
        Collection_Private.enqueueElements, Collection_Private.prepareToEnqueueElements,
        hself, hz, hq, e]

/-- Over a run of notifications the elements are enqueued by the first one, if it is
the collection's own, and by no other. -/
theorem Collection_Private.run_notifications_enqueue
    (jobs : List (JobPointer × ThreadPtr)) :
    ∀ (s : Collection_Private), (s.selfIsExecuting = true → s.api ≠ none) →
      ∃ t, s.run (notifications jobs) = some t ∧
        t.enqueueCalls
          = s.enqueueCalls + (if s.selfIsExecuting = true ∧ jobs ≠ [] then 1 else 0) := by
  induction jobs with
  | nil => intro s _; exact ⟨s, rfl, by simp⟩
  | cons jt rest ih =>
    intro s hq
    obtain ⟨t, ht, htself, htcalls, _⟩ := s.elementFinished_enqueue_spec jt.1 jt.2 hq
    obtain ⟨u, hu, hucalls⟩ := ih t (fun h => by rw [htself] at h; cases h)
    refine ⟨u, ?_, ?_⟩
    · show s.run (Op.elementFinished jt.1 jt.2 :: notifications rest) = some u
      rw [s.run_cons t (Op.elementFinished jt.1 jt.2) _ ht]; exact hu
    · rw [hucalls, htcalls, htself]; simp

/-- C13.  The element vector is handed to the queue only by the notification that finds
`selfIsExecuting` set: that notification makes one enqueue call, with the whole
vector in its order as `prepareToEnqueueElements` left it, right after the
counter store; a notification that finds the flag unset makes none.  Over any
sequence of notifications there is one enqueue call if the flag was set at the
start and the sequence is not empty, and none otherwise. -/
theorem Collection_Private.children_enqueued_once (s : Collection_Private)
    (jobs : List (JobPointer × ThreadPtr))
    (hq : s.selfIsExecuting = true → s.api ≠ none) :
    (∀ job thread, ∃ t, s.elementFinished job thread = some t ∧
      (s.selfIsExecuting = false → t.enqueueCalls = s.enqueueCalls) ∧
      (∀ q, s.selfIsExecuting = true → s.api = some q →
        t.enqueueCalls = s.enqueueCalls + 1 ∧
        ∃ rest, t.trace = s.trace ++
          ([CEvent.lock, CEvent.assertSelfNotNull s.self.isSome,
            CEvent.counterStore (int32 ((s.elements.length : Int) + 1)),
            CEvent.enqueue q s.prepareToEnqueueElements.elements] ++ rest) ∧
          rest.countP CEvent.isEnqueue = 0)) ∧
    s.prepareToEnqueueElements.elements = s.elements ∧
    ∃ t, s.run (notifications jobs) = some t ∧
      t.enqueueCalls
        = s.enqueueCalls + (if s.selfIsExecuting = true ∧ jobs ≠ [] then 1 else 0) := by
  refine ⟨?_, rfl, Collection_Private.run_notifications_enqueue jobs s hq⟩
  intro job thread
  obtain ⟨t, ht, _, htcalls, htrace⟩ := s.elementFinished_enqueue_spec job thread hq
  refine ⟨t, ht, ?_, ?_⟩
  · intro h; rw [htcalls, h]; simp
  · intro q hself hapi
    exact ⟨by rw [htcalls, hself]; simp, htrace q hself hapi⟩

/-- Instance of C13: the three notifications of a collection with two children make one
enqueue call. -/
theorem Collection_Private.children_enqueued_once_witness :
    ∃ t, sampleCollection.run
        (notifications [(some 0, 1), (some 1, 1), (some 2, 2)]) = some t ∧
      t.enqueueCalls = 1 ∧
      CEvent.enqueue 9 [some 1, some 2] ∈ t.trace := by
  obtain ⟨_, _, t, h1, h2⟩ :=
    Collection_Private.children_enqueued_once sampleCollection
      [(some 0, 1), (some 1, 1), (some 2, 2)] (fun _ => by decide)
  refine ⟨t, h1, h2, ?_⟩
  have hrun : sampleCollection.run
      (notifications [(some 0, 1), (some 1, 1), (some 2, 2)]) =
      some ((sampleCollection.run
        (notifications [(some 0, 1), (some 1, 1), (some 2, 2)])).get (by decide)) := by
    simp
  rw [hrun] at h1
  cases h1
  decide

/-! ## Theorems: the self-handle -/

/-- Policy calls neither touch the mutex nor clear the self-handle. -/
theorem selfClearedUnderMutex_policyFree (held : Bool) (ps : List QueuePolicyPtr)
    (job : JobPointer) (rest : List CEvent) :
    selfClearedUnderMutex held (ps.map (fun p => CEvent.policyFree p job) ++ rest)
      = selfClearedUnderMutex held rest := by
  induction ps with
  | nil => rfl
  | cons p tail ih => simpa [selfClearedUnderMutex] using ih

/-- The events from `finalCleanup` on end with the unlock followed by the clearing of
the self-handle: the handle is cleared with the mutex released. -/
theorem selfClearedUnderMutex_completionEvents (s : Collection_Private)
    (thread : ThreadPtr) (held : Bool) :
    selfClearedUnderMutex held (s.completionEvents thread) = false := by
  simp [Collection_Private.completionEvents, selfClearedUnderMutex,
    selfClearedUnderMutex_policyFree]

/-- C14, as the claim states it, fails in one point: in the notification that brings
`jobCounter` from `1` to `0` the order is `finalCleanup`, `defaultEnd`, unlock,
clearing of the self-handle, so the handle is cleared after the mutex has been
released, not under it. -/
theorem Collection_Private.self_cleared_after_unlock :
    ((queuedCollection 1).elementFinished (some 2) 1).map
        (fun t => (t.jobCounter, t.self, t.trace)) =
      some (0, none,
        [CEvent.lock, CEvent.assertSelfNotNull true, CEvent.assertStarted true,
          CEvent.counterAdd (-1), CEvent.assertRemaining true, CEvent.finalCleanup,
          CEvent.assertSelfNotNull true, CEvent.policyFree 5 (some 0),
          CEvent.setStatus Status_Success,
          CEvent.defaultEnd ExecutorPtr.defaultExecutor (some 0) 1, CEvent.unlock,
          CEvent.selfClear]) ∧
    selfClearedUnderMutex false
        [CEvent.lock, CEvent.assertSelfNotNull true, CEvent.assertStarted true,
          CEvent.counterAdd (-1), CEvent.assertRemaining true, CEvent.finalCleanup,
          CEvent.assertSelfNotNull true, CEvent.policyFree 5 (some 0),
          CEvent.setStatus Status_Success,
          CEvent.defaultEnd ExecutorPtr.defaultExecutor (some 0) 1, CEvent.unlock,
          CEvent.selfClear] = false := by
  decide

/-- C14, amended.  The notification that brings `jobCounter` to zero does, after the
decrement and in this order: `finalCleanup`, the executor's `defaultEnd` on the
self-handle, the unlock of the collection mutex, the clearing of the
self-handle; so the handle is cleared by this callback after it has released
the mutex.  No other operation clears it: a notification that leaves the
counter non-zero, `dequeueElements`, `finalCleanup`, `elementStarted` and
`enqueueElements` leave the self-handle as it is. -/
theorem Collection_Private.self_cleared_by_last_notification (s : Collection_Private)
    (job : JobPointer) (thread : ThreadPtr) (locked : Bool)
    (hq : s.selfIsExecuting = true → s.api ≠ none) :
    (∃ t, s.elementFinished job thread = some t ∧
      (int32 (s.counterBeforeDecrement - 1) = 0 →
        t.self = none ∧
        (s.selfIsExecuting = false →
          t.trace = s.trace ++
            ([CEvent.lock, CEvent.assertSelfNotNull s.self.isSome,
              CEvent.assertStarted (decide (s.jobsStarted ≥ 0)), CEvent.counterAdd (-1),
              CEvent.assertRemaining true] ++ s.completionEvents thread)) ∧
        (∀ q, s.selfIsExecuting = true → s.api = some q →
          t.trace = s.trace ++
            ([CEvent.lock, CEvent.assertSelfNotNull s.self.isSome,
              CEvent.counterStore (int32 ((s.elements.length : Int) + 1)),
              CEvent.enqueue q s.elements,
              CEvent.assertStarted (decide (s.jobsStarted ≥ 0)), CEvent.counterAdd (-1),
              CEvent.assertRemaining true] ++ s.completionEvents thread)) ∧
        selfClearedUnderMutex false (t.trace.drop s.trace.length) = false) ∧
      (int32 (s.counterBeforeDecrement - 1) ≠ 0 →
        t.self = s.self ∧
        t.trace.count CEvent.selfClear = s.trace.count CEvent.selfClear)) ∧
    ((s.dequeueElements locked).self = s.self ∧
      (s.dequeueElements locked).trace.count CEvent.selfClear
        = s.trace.count CEvent.selfClear) ∧
    s.finalCleanup.self = s.self ∧
    (s.elementStarted job thread).self = s.self ∧
    (∀ t, s.enqueueElements = some t → t.self = s.self) := by
  have hc := count_policyFree s.queuePolicies s.self CEvent.selfClear (by intro p; simp)
  have e : ∀ x : Int, x + -1 = x - 1 := fun x => by omega
  have hdrop : ∀ (x : List CEvent), (s.trace ++ x).drop s.trace.length = x :=
    fun x => List.drop_left _ _
  refine ⟨?_, ?_, rfl, (s.elementStarted_spec job thread).2.2.2.1, ?_⟩
  · cases hself : s.selfIsExecuting
    · by_cases hz : int32 (s.jobCounter - 1) = 0
      · simp [Collection_Private.elementFinished, Collection_Private.processCompletedElement,
          Collection_Private.finalCleanup, Collection_Private.freeQueuePolicyResources,
          Collection_Private.log, Collection_Private.completionEvents,
          Collection_Private.counterBeforeDecrement, selfClearedUnderMutex,
          selfClearedUnderMutex_policyFree, hself, hz, e, hdrop]
      · simp [Collection_Private.elementFinished, Collection_Private.processCompletedElement,
          Collection_Private.log, Collection_Private.counterBeforeDecrement, hself, hz, e]
    · obtain ⟨q, hq⟩ := Option.ne_none_iff_exists'.1 (hq hself)
      by_cases hz : int32 (int32 ((s.elements.length : Int) + 1) - 1) = 0
      · simp [Collection_Private.elementFinished, Collection_Private.processCompletedElement,
          Collection_Private.finalCleanup, Collection_Private.freeQueuePolicyResources,
          Collection_Private.log, Collection_Private.completionEvents,
          Collection_Private.counterBeforeDecrement, Collection_Private.enqueueElements,
          Collection_Private.prepareToEnqueueElements, selfClearedUnderMutex,
          selfClearedUnderMutex_policyFree, hself, hz, hq, e, hdrop]
      · simp [Collection_Private.elementFinished, Collection_Private.processCompletedElement,
          Collection_Private.log, Collection_Private.counterBeforeDecrement,
          Collection_Private.enqueueElements, Collection_Private.prepareToEnqueueElements,
          hself, hz, hq, e]
  · cases hapi : s.api with
    | none => simp [Collection_Private.dequeueElements, hapi]
    | some q =>
      have hd := count_dequeue s.elements q locked CEvent.selfClear
        (by intro x; simp) (by intro x; simp)
      by_cases hz : s.jobCounter = 0
      · simp [Collection_Private.dequeueElements, Collection_Private.log, hapi, hz, hd]
      · simp [Collection_Private.dequeueElements, Collection_Private.finalCleanup,
          Collection_Private.freeQueuePolicyResources, Collection_Private.log, hapi, hz,
          hd, hc]
  · intro t ht
    cases hapi : s.api with
    | none =>
      simp [Collection_Private.enqueueElements, Collection_Private.prepareToEnqueueElements,
        Collection_Private.log, hapi] at ht
    | some q =>
      rw [s.enqueueElements_spec q hapi] at ht
      cases ht
      rfl

/-- Instance of C14 (amended): the last notification of a collection with two
children clears the self-handle; a dequeue does not. -/
theorem Collection_Private.self_cleared_by_last_notification_witness :
    (∃ t, (queuedCollection 1).elementFinished (some 2) 1 = some t ∧ t.self = none ∧
      selfClearedUnderMutex false (t.trace.drop (queuedCollection 1).trace.length) = false) ∧
    ((queuedCollection 1).dequeueElements true).self = (queuedCollection 1).self := by
  obtain ⟨⟨t, ht, hzero, _⟩, hdq, _⟩ :=
    Collection_Private.self_cleared_by_last_notification (queuedCollection 1) (some 2) 1
      true (fun h => by cases h)
  obtain ⟨h1, _, _, h4⟩ := hzero (by decide)
  exact ⟨⟨t, ht, h1, h4⟩, hdq.1⟩

/-! ## Theorems: executor slot and policy list -/

/-- After a `setExecutor` call the slot is not null, whatever it was before. -/
theorem Job.setExecutor_ne_null (d : Job_Private) (e : ExecutorPtr) :
    (Job.setExecutor d e).2.executor ≠ ExecutorPtr.null := by
  by_cases h : e = ExecutorPtr.null
  · simp [Job.setExecutor, h]
  · simp [Job.setExecutor, h]

/-- A sequence of `setExecutor` calls keeps a non-null slot non-null. -/
theorem Job.setExecutors_ne_null (args : List ExecutorPtr) :
    ∀ (d : Job_Private), d.executor ≠ ExecutorPtr.null →
      (Job.setExecutors d args).executor ≠ ExecutorPtr.null := by
  induction args with
  | nil => intro d h; exact h
  | cons e rest ih =>
    intro d _
    exact ih (Job.setExecutor d e).2 (Job.setExecutor_ne_null d e)

/-- C15.  The executor slot of a constructed job is not null, and stays so over every
sequence of `setExecutor` calls with any arguments; `Job::executor()` returns
the slot.  `setExecutor(null)` installs the default executor, `setExecutor(e)`
for a non-null `e` installs `e`, and each call returns what the slot held
before.  With a non-null slot, `setExecutor(setExecutor(w))` for a non-null `w`
restores the slot and returns `w`. -/
theorem Job.executor_never_null (d : Job_Private) (debug : Bool)
    (args : List ExecutorPtr) (e w : ExecutorPtr)
    (hd : d.executor ≠ ExecutorPtr.null) (he : e ≠ ExecutorPtr.null)
    (hw : w ≠ ExecutorPtr.null) :
    (Job.Job debug).1.executor ≠ ExecutorPtr.null ∧
    Job.executor (Job.setExecutors d args) ≠ ExecutorPtr.null ∧
    Job.executor (Job.setExecutors (Job.Job debug).1 args) ≠ ExecutorPtr.null ∧
    Job.executor (Job.setExecutor d ExecutorPtr.null).2 = ExecutorPtr.defaultExecutor ∧
    Job.executor (Job.setExecutor d e).2 = e ∧
    (∀ x, (Job.setExecutor d x).1 = Job.executor d) ∧
    Job.executor (Job.setExecutor (Job.setExecutor d w).2 (Job.setExecutor d w).1).2
      = Job.executor d ∧
    (Job.setExecutor (Job.setExecutor d w).2 (Job.setExecutor d w).1).1 = w := by
  have hnew : (Job.Job debug).1.executor ≠ ExecutorPtr.null := by
    cases debug <;> decide
  refine ⟨hnew, Job.setExecutors_ne_null args d hd,
    Job.setExecutors_ne_null args _ hnew, ?_, ?_, fun _ => rfl, ?_, ?_⟩
  · simp [Job.setExecutor, Job.executor]
  · simp [Job.setExecutor, Job.executor, he]
  · simp [Job.setExecutor, Job.executor, hd]
  · simp [Job.setExecutor, hw]

/-- Instance of C15: a wrapper put into the slot of a new job and taken out again, and a
sequence of calls with null arguments. -/
theorem Job.executor_never_null_witness :
    Job.executor (Job.setExecutors (Job.Job false).1
      [ExecutorPtr.null, ExecutorPtr.object 3, ExecutorPtr.null]) ≠ ExecutorPtr.null ∧
    Job.executor (Job.setExecutor (Job.setExecutor (Job.Job false).1 (ExecutorPtr.object 3)).2
      (Job.setExecutor (Job.Job false).1 (ExecutorPtr.object 3)).1).2
      = ExecutorPtr.defaultExecutor :=
  have h := Job.executor_never_null (Job.Job false).1 false
    [ExecutorPtr.null, ExecutorPtr.object 3, ExecutorPtr.null]
    (ExecutorPtr.object 1) (ExecutorPtr.object 3) (by decide) (by decide) (by decide)
  ⟨h.2.1, h.2.2.2.2.2.2.1⟩

/-- On a list, `QList::indexOf` followed by `QList::removeAt` removes the first
occurrence of the value. -/
theorem Job.removeQueuePolicy_queuePolicies (d : Job_Private) (p : QueuePolicyPtr) :
    (Job.removeQueuePolicy d p).queuePolicies = d.queuePolicies.erase p := by
  by_cases h : p ∈ d.queuePolicies
  · have hne : ((List.indexOf p d.queuePolicies : Nat) : Int) ≠ -1 := by omega
    have hnn : ¬ ((List.indexOf p d.queuePolicies : Nat) : Int) < 0 := by omega
    simp only [Job.removeQueuePolicy, QList.indexOf, QList.removeAt, h, if_true, hne,
      ne_eq, not_false_eq_true, hnn, if_false, Int.toNat_ofNat]
    exact List.eraseIdx_indexOf_eq_erase p d.queuePolicies
  · simp [Job.removeQueuePolicy, QList.indexOf, h, List.erase_of_not_mem h]

/-- What `Job::assignQueuePolicy` does to the list. -/
theorem Job.assignQueuePolicy_queuePolicies (d : Job_Private) (p : QueuePolicyPtr) :
    (Job.assignQueuePolicy d p).queuePolicies
      = if p ∈ d.queuePolicies then d.queuePolicies else d.queuePolicies ++ [p] := by
  by_cases h : p ∈ d.queuePolicies <;> simp [Job.assignQueuePolicy, h]

/-- Assigning and removing keep a list without duplicates free of duplicates. -/
theorem Job.applyPolicyOps_nodup (ops : List PolicyOp) :
    ∀ (d : Job_Private), d.queuePolicies.Nodup →
      (Job.applyPolicyOps d ops).queuePolicies.Nodup := by
  induction ops with
  | nil => intro d h; exact h
  | cons op rest ih =>
    intro d h
    apply ih (Job.applyPolicyOp d op)
    cases op with
    | assign p =>
      show (Job.assignQueuePolicy d p).queuePolicies.Nodup
      rw [Job.assignQueuePolicy_queuePolicies]
      by_cases hp : p ∈ d.queuePolicies
      · simpa [hp] using h
      · simp only [hp, if_false]
        exact List.Nodup.append h (List.nodup_singleton p) (by
          intro x hx hx'
          rw [List.mem_singleton] at hx'
          exact hp (hx' ▸ hx))
    | remove p =>
      show (Job.removeQueuePolicy d p).queuePolicies.Nodup
      rw [Job.removeQueuePolicy_queuePolicies]
      exact h.erase p

/-- C16.  `Job::assignQueuePolicy` appends a policy that is not attached and leaves the
entries before it as they are; it changes nothing if the policy is attached, so
assigning twice is assigning once.  A list without duplicates stays so over
every sequence of assign and remove calls; that of a new job has none. -/
theorem Job.assignQueuePolicy_keeps_order (d : Job_Private) (p : QueuePolicyPtr)
    (debug : Bool) (ops : List PolicyOp) :
    (p ∉ d.queuePolicies →
      Job.queuePolicies (Job.assignQueuePolicy d p) = d.queuePolicies ++ [p]) ∧
    (p ∈ d.queuePolicies → Job.assignQueuePolicy d p = d) ∧
    Job.assignQueuePolicy (Job.assignQueuePolicy d p) p = Job.assignQueuePolicy d p ∧
    (d.queuePolicies.Nodup → (Job.queuePolicies (Job.applyPolicyOps d ops)).Nodup) ∧
    (Job.queuePolicies (Job.applyPolicyOps (Job.Job debug).1 ops)).Nodup := by
  refine ⟨?_, ?_, ?_, Job.applyPolicyOps_nodup ops d, ?_⟩
  · intro h; simp [Job.queuePolicies, Job.assignQueuePolicy, h]
  · intro h; simp [Job.assignQueuePolicy, h]
  · by_cases h : p ∈ d.queuePolicies <;> simp [Job.assignQueuePolicy, h]
  · apply Job.applyPolicyOps_nodup
    cases debug <;> exact List.nodup_nil

/-- Instance of C16: assigning `7` to a list that holds `5` appends it; the list stays
free of duplicates over a sequence of calls. -/
theorem Job.assignQueuePolicy_keeps_order_witness :
    Job.queuePolicies (Job.assignQueuePolicy sampleCollection.toJob_Private 7) = [5, 7] ∧
    (Job.queuePolicies (Job.applyPolicyOps sampleCollection.toJob_Private
      [PolicyOp.assign 7, PolicyOp.assign 5, PolicyOp.remove 5, PolicyOp.assign 7])).Nodup :=
  have h := Job.assignQueuePolicy_keeps_order sampleCollection.toJob_Private 7 false
    [PolicyOp.assign 7, PolicyOp.assign 5, PolicyOp.remove 5, PolicyOp.assign 7]
  ⟨h.1 (by decide), h.2.2.2.1 (by decide)⟩

/-- C17.  `Job::removeQueuePolicy` removes the first entry equal to `p`: the result is
the old list with entries left out (the others keep their order), and on a list
without duplicates, as `assignQueuePolicy` keeps it, the result is the old list
without `p`.  Removing a policy that is not attached changes nothing, and
assigning a policy that was not attached and then removing it gives back the
job as it was. -/
theorem Job.removeQueuePolicy_undoes_assign (d : Job_Private) (p : QueuePolicyPtr) :
    (Job.queuePolicies (Job.removeQueuePolicy d p)).Sublist d.queuePolicies ∧
    (d.queuePolicies.Nodup →
      p ∉ Job.queuePolicies (Job.removeQueuePolicy d p) ∧
      Job.queuePolicies (Job.removeQueuePolicy d p)
        = d.queuePolicies.filter (fun x => x != p)) ∧
    (p ∉ d.queuePolicies → Job.removeQueuePolicy d p = d) ∧
    (p ∉ d.queuePolicies → Job.removeQueuePolicy (Job.assignQueuePolicy d p) p = d) := by
  have herase := Job.removeQueuePolicy_queuePolicies d p
  refine ⟨?_, ?_, ?_, ?_⟩
  · show (Job.removeQueuePolicy d p).queuePolicies.Sublist _
    rw [herase]; exact List.erase_sublist p _
  · intro hnd
    refine ⟨?_, ?_⟩
    · show p ∉ (Job.removeQueuePolicy d p).queuePolicies
      rw [herase]; exact hnd.not_mem_erase
    · show (Job.removeQueuePolicy d p).queuePolicies = _
      rw [herase]; exact hnd.erase_eq_filter p
  · intro h; simp [Job.removeQueuePolicy, QList.indexOf, h]
  · intro h
    have hassign : Job.assignQueuePolicy d p
        = { d with queuePolicies := d.queuePolicies ++ [p] } := by
      simp [Job.assignQueuePolicy, h]
    have hlist : (Job.removeQueuePolicy (Job.assignQueuePolicy d p) p).queuePolicies
        = d.queuePolicies := by
      rw [Job.removeQueuePolicy_queuePolicies, hassign]
      show (d.queuePolicies ++ [p]).erase p = d.queuePolicies
      rw [List.erase_append_right _ h]; simp
    have hmem : p ∈ (Job.assignQueuePolicy d p).queuePolicies := by
      rw [hassign]; simp
    have hne : ((List.indexOf p (Job.assignQueuePolicy d p).queuePolicies : Nat) : Int)
        ≠ -1 := by omega
    have hshape : Job.removeQueuePolicy (Job.assignQueuePolicy d p) p
        = { Job.assignQueuePolicy d p with
            queuePolicies :=
              (Job.removeQueuePolicy (Job.assignQueuePolicy d p) p).queuePolicies } := by
      simp only [Job.removeQueuePolicy, QList.indexOf, hmem, if_true, hne, ne_eq,
        not_false_eq_true]
    rw [hshape, hlist, hassign]

/-- Instance of C17: removing `5` from the list `[5]`, and assigning then removing `7`. -/
theorem Job.removeQueuePolicy_undoes_assign_witness :
    5 ∉ Job.queuePolicies (Job.removeQueuePolicy sampleCollection.toJob_Private 5) ∧
    Job.removeQueuePolicy (Job.assignQueuePolicy sampleCollection.toJob_Private 7) 7
      = sampleCollection.toJob_Private :=
  have h := Job.removeQueuePolicy_undoes_assign sampleCollection.toJob_Private
  ⟨((h 5).2.1 (by decide)).1, (h 7).2.2.2 (by decide)⟩

/-- C18.  `Job::~Job` calls `destructed(this)` on the attached policies in the order of
the list and on nothing else; on a list without duplicates, as
`assignQueuePolicy` keeps it, every attached policy is called exactly once and
a policy that has been removed is not called. -/
theorem Job.destructor_notifies_attached (d : Job_Private) (this : JobPointer)
    (p : QueuePolicyPtr) (hnd : d.queuePolicies.Nodup) :
    Job.destructor d this
      = (Job.queuePolicies d).map (fun q => PolicyEvent.destructed q this) ∧
    (∀ q, q ∈ d.queuePolicies →
      (Job.destructor d this).count (PolicyEvent.destructed q this) = 1) ∧
    (∀ q, q ∉ d.queuePolicies →
      (Job.destructor d this).count (PolicyEvent.destructed q this) = 0) ∧
    PolicyEvent.destructed p this ∉ Job.destructor (Job.removeQueuePolicy d p) this := by
  have hinj : Function.Injective (fun q => PolicyEvent.destructed q this) := by
    intro a b h; cases h; rfl
  have hcount : ∀ q, (Job.destructor d this).count (PolicyEvent.destructed q this)
      = d.queuePolicies.count q := by
    intro q
    exact List.count_map_of_injective d.queuePolicies _ hinj q
  refine ⟨rfl, ?_, ?_, ?_⟩
  · intro q hq; rw [hcount]; exact List.count_eq_one_of_mem hnd hq
  · intro q hq; rw [hcount]; exact List.count_eq_zero_of_not_mem hq
  · intro hmem
    obtain ⟨q, hq, heq⟩ := List.mem_map.1 hmem
    cases heq
    rw [Job.removeQueuePolicy_queuePolicies] at hq
    exact hnd.not_mem_erase hq

/-- Instance of C18: a job with the policies `5` and `7`, of which `5` is removed
before the job is destroyed. -/
theorem Job.destructor_notifies_attached_witness :
    Job.destructor (Job.assignQueuePolicy sampleCollection.toJob_Private 7) (some 0)
      = [PolicyEvent.destructed 5 (some 0), PolicyEvent.destructed 7 (some 0)] ∧
    PolicyEvent.destructed 5 (some 0) ∉
      Job.destructor
        (Job.removeQueuePolicy (Job.assignQueuePolicy sampleCollection.toJob_Private 7) 5)
        (some 0) :=
  have h := Job.destructor_notifies_attached
    (Job.assignQueuePolicy sampleCollection.toJob_Private 7) (some 0) 5 (by decide)
  ⟨h.1, h.2.2.2⟩

/-! ## Theorems: dequeue requests -/

/-- C20.  On a queued collection `dequeueElements` issues, in the order of the element
vector, one dequeue request per element and for nothing else, all through
`dequeue_p` if `queueApiIsLocked` is set and all through `dequeue` otherwise;
then it stores `0` into `jobCounter` (and enters `finalCleanup` if the counter
was not zero).  On a collection that is not queued it changes nothing. -/
theorem Collection_Private.dequeueElements_requests (s : Collection_Private)
    (locked : Bool) :
    (∀ q, s.api = some q →
      (s.dequeueElements locked).trace = s.trace ++
        (s.elements.map (fun e =>
            if locked then CEvent.dequeue_p q e else CEvent.dequeue q e) ++
          [CEvent.counterStore 0] ++
          (if s.jobCounter ≠ 0 then
            [CEvent.finalCleanup, CEvent.assertSelfNotNull s.self.isSome] ++
              s.queuePolicies.map (fun p => CEvent.policyFree p s.self) ++
              [CEvent.setStatus Status_Success]
          else [])) ∧
      (s.dequeueElements locked).trace.filter CEvent.isDequeue
        = s.trace.filter CEvent.isDequeue ++
          s.elements.map (fun e =>
            if locked then CEvent.dequeue_p q e else CEvent.dequeue q e) ∧
      (s.dequeueElements locked).jobCounter = 0 ∧
      (s.dequeueElements locked).elements = s.elements) ∧
    (s.api = none → s.dequeueElements locked = s) := by
  have hf : ∀ q, (s.elements.map (fun e =>
      if locked then CEvent.dequeue_p q e else CEvent.dequeue q e)).filter CEvent.isDequeue
      = s.elements.map (fun e =>
        if locked then CEvent.dequeue_p q e else CEvent.dequeue q e) := by
    intro q
    rw [List.filter_eq_self]
    intro a ha
    obtain ⟨x, _, rfl⟩ := List.mem_map.1 ha
    cases locked <;> rfl
  have hp : (s.queuePolicies.map (fun p => CEvent.policyFree p s.self)).filter
      CEvent.isDequeue = [] := by
    rw [List.filter_eq_nil_iff]
    intro a ha
    obtain ⟨x, _, rfl⟩ := List.mem_map.1 ha
    simp [CEvent.isDequeue]
  constructor
  · intro q hq
    by_cases hz : s.jobCounter = 0
    · simp [Collection_Private.dequeueElements, Collection_Private.log, hq, hz, hf,
        CEvent.isDequeue]
    · simp [Collection_Private.dequeueElements, Collection_Private.finalCleanup,
        Collection_Private.freeQueuePolicyResources, Collection_Private.log, hq, hz, hf,
        hp, CEvent.isDequeue]
  · intro h; simp [Collection_Private.dequeueElements, h]

/-- Instance of C20: a dequeue of a collection with two children through the locked
variant. -/
theorem Collection_Private.dequeueElements_requests_witness :
    ((queuedCollection 0).dequeueElements true).trace
      = [CEvent.dequeue_p 9 (some 1), CEvent.dequeue_p 9 (some 2), CEvent.counterStore 0] ∧
    ((queuedCollection 0).dequeueElements true).jobCounter = 0 := by
  obtain ⟨h1, _, h3, _⟩ :=
    (Collection_Private.dequeueElements_requests (queuedCollection 0) true).1 9 rfl
  exact ⟨by rw [h1]; decide, h3⟩

/-! ## Theorems: sequences -/

/-- Telling the sequence of a completed element keeps the length of the child list. -/
theorem Sequence_Private.processCompletedElement_length (l : List ChildState) (k : Nat)
    (st : Status) : (Sequence_Private.processCompletedElement l k st).length = l.length := by
  unfold Sequence_Private.processCompletedElement
  split <;> simp

/-- Telling the sequence of a completed element leaves finished children finished. -/
theorem Sequence_Private.processCompletedElement_finished (l : List ChildState)
    (k : Nat) (st : Status) (j : Nat) (x : Status)
    (h : l[j]? = some (ChildState.finished x)) :
    (Sequence_Private.processCompletedElement l k st)[j]? = some (ChildState.finished x) := by
  unfold Sequence_Private.processCompletedElement
  split
  · simp [List.getElem?_mapIdx, h]
  · exact h

/-- Telling the sequence of a completed element starts and finishes no child. -/
theorem Sequence_Private.processCompletedElement_started (l : List ChildState)
    (k : Nat) (st : Status) (j : Nat) (c : ChildState)
    (hc : c = ChildState.running ∨ ∃ x, c = ChildState.finished x)
    (h : (Sequence_Private.processCompletedElement l k st)[j]? = some c) :
    l[j]? = some c := by
  unfold Sequence_Private.processCompletedElement at h
  split at h
  · rw [List.getElem?_mapIdx] at h
    cases hl : l[j]? with
    | none => rw [hl] at h; simp at h
    | some c0 =>
      rw [hl] at h
      simp only [Option.map_some', Option.some.injEq] at h
      by_cases hcond : k < j ∧ c0 = ChildState.queued
      · rw [if_pos hcond] at h
        rcases hc with hc | ⟨x, hc⟩ <;> rw [hc] at h <;> cases h
      · rw [if_neg hcond] at h
        rw [h]
  · exact h

/-- The state after `prepareToEnqueueElements` is ordered. -/
theorem Sequence_Private.prepareToEnqueueElements_ordered (n : Nat) :
    (Sequence_Private.prepareToEnqueueElements n).ordered n := by
  refine ⟨by simp [Sequence_Private.prepareToEnqueueElements], ?_, ?_⟩
  · intro i hi
    left
    simp only [Sequence_Private.prepareToEnqueueElements, List.mem_map, List.mem_range]
    exact ⟨i, by omega, rfl⟩
  · intro i h
    simp only [Sequence_Private.prepareToEnqueueElements, List.getElem?_replicate] at h
    rcases h with h | ⟨st, h⟩ <;> split at h <;> simp at h

/-- A step of the queue keeps a sequence ordered. -/
theorem SequenceState.ordered_step (n : Nat) (s t : SequenceState) (step : SequenceStep)
    (hs : s.ordered n) (ht : s.step step = some t) : t.ordered n := by
  obtain ⟨hlen, hdep, hpred⟩ := hs
  cases step with
  | start k =>
    simp only [SequenceState.step] at ht
    split at ht
    · rename_i hguard
      obtain ⟨hk, hcan⟩ := hguard
      cases ht
      have hkeep : ∀ (j : Nat) (st : Status), s.children[j]? = some (ChildState.finished st) →
          (s.children.set k ChildState.running)[j]? = some (ChildState.finished st) := by
        intro j st hj
        have hne : k ≠ j := by
          intro h; rw [h] at hk; rw [hk] at hj; cases hj
        rw [List.getElem?_set_ne hne]; exact hj
      refine ⟨by simpa using hlen, ?_, ?_⟩
      · intro i hi
        rcases hdep i hi with h | ⟨st, h, hfin⟩
        · exact Or.inl h
        · exact Or.inr ⟨st, hkeep i st h, hfin⟩
      · intro i h
        by_cases hik : k = i + 1
        · have hlt : i + 1 < n := by
            rw [← hlen, ← hik]
            exact (List.getElem?_eq_some.1 hk).1
          rcases hdep i hlt with hmem | ⟨st, hst, hfin⟩
          · exfalso
            simp only [DependencyPolicy.canRun, List.all_eq_true] at hcan
            have := hcan (i + 1, i) hmem
            simp [hik] at this
          · exact ⟨st, hkeep i st hst, hfin⟩
        · have h' : s.children[i + 1]? = some ChildState.running ∨
              ∃ st, s.children[i + 1]? = some (ChildState.finished st) := by
            simpa [List.getElem?_set_ne hik] using h
          obtain ⟨st, hst, hfin⟩ := hpred i h'
          exact ⟨st, hkeep i st hst, hfin⟩
    · cases ht
  | finish k status =>
    simp only [SequenceState.step] at ht
    split at ht
    · rename_i hguard
      obtain ⟨hk, hstatus⟩ := hguard
      cases ht
      have hklt : k < s.children.length := (List.getElem?_eq_some.1 hk).1
      have hkeep : ∀ (j : Nat) (st : Status), s.children[j]? = some (ChildState.finished st) →
          (Sequence_Private.processCompletedElement
            (s.children.set k (ChildState.finished status)) k status)[j]?
            = some (ChildState.finished st) := by
        intro j st hj
        apply Sequence_Private.processCompletedElement_finished
        have hne : k ≠ j := by
          intro h; rw [h] at hk; rw [hk] at hj; cases hj
        rw [List.getElem?_set_ne hne]; exact hj
      have hself : (Sequence_Private.processCompletedElement
            (s.children.set k (ChildState.finished status)) k status)[k]?
            = some (ChildState.finished status) := by
        apply Sequence_Private.processCompletedElement_finished
        exact List.getElem?_set_self hklt
      refine ⟨?_, ?_, ?_⟩
      · simpa [Sequence_Private.processCompletedElement_length] using hlen
      · intro i hi
        by_cases hik : i = k
        · exact Or.inr ⟨status, by rw [hik]; exact hself, hstatus⟩
        · rcases hdep i hi with h | ⟨st, h, hfin⟩
          · left
            simp only [DependencyPolicy.resolveDependencies, List.mem_filter]
            exact ⟨h, by simpa using hik⟩
          · exact Or.inr ⟨st, hkeep i st h, hfin⟩
      · intro i h
        have hold : s.children[i + 1]? = some ChildState.running ∨
            ∃ st, s.children[i + 1]? = some (ChildState.finished st) := by
          by_cases hik : k = i + 1
          · left; rw [← hik]; exact hk
          · rcases h with h | ⟨st, h⟩
            · have := Sequence_Private.processCompletedElement_started _ k status (i + 1)
                _ (Or.inl rfl) h
              rw [List.getElem?_set_ne hik] at this
              exact Or.inl this
            · have := Sequence_Private.processCompletedElement_started _ k status (i + 1)
                _ (Or.inr ⟨st, rfl⟩) h
              rw [List.getElem?_set_ne hik] at this
              exact Or.inr ⟨st, this⟩
        obtain ⟨st, hst, hfin⟩ := hpred i hold
        exact ⟨st, hkeep i st hst, hfin⟩
    · cases ht

/-- Every run of the queue keeps a sequence ordered. -/
theorem SequenceState.ordered_run (n : Nat) (steps : List SequenceStep) :
    ∀ (s t : SequenceState), s.ordered n → s.run steps = some t → t.ordered n := by
  induction steps with
  | nil => intro s t hs ht; cases ht; exact hs
  | cons step rest ih =>
    intro s t hs ht
    simp only [SequenceState.run] at ht
    cases hstep : s.step step with
    | none => rw [hstep] at ht; cases ht
    | some u =>
      rw [hstep] at ht
      exact ih u t (s.ordered_step n u step hs hstep) ht

/-- C19.  In the model of the spec: after the sequence has installed the dependency of
each child on its predecessor and queued its `n` children, in every state the
queue can reach, child `c[i+1]` can be started only if `c[i]` has finished with
a terminal status; and whenever `c[i+1]` is running or has finished, `c[i]` has
finished with a terminal status. -/
theorem SequenceState.starts_after_predecessor (n : Nat) (steps : List SequenceStep)
    (s : SequenceState) (i : Nat)
    (hrun : (Sequence_Private.prepareToEnqueueElements n).run steps = some s) :
    (∀ t, s.step (SequenceStep.start (i + 1)) = some t →
      ∃ st, s.children[i]? = some (ChildState.finished st) ∧ st.isFinished = true) ∧
    ((s.children[i + 1]? = some ChildState.running ∨
        ∃ st, s.children[i + 1]? = some (ChildState.finished st)) →
      ∃ st, s.children[i]? = some (ChildState.finished st) ∧ st.isFinished = true) := by
  have hs : s.ordered n :=
    SequenceState.ordered_run n steps _ s
      (Sequence_Private.prepareToEnqueueElements_ordered n) hrun
  refine ⟨?_, hs.2.2 i⟩
  intro t ht
  have hto : t.ordered n := s.ordered_step n t _ hs ht
  have hrunning : t.children[i + 1]? = some ChildState.running := by
    simp only [SequenceState.step] at ht
    split at ht
    · rename_i hguard
      cases ht
      exact List.getElem?_set_self (List.getElem?_eq_some.1 hguard.1).1
    · cases ht
  obtain ⟨st, hst, hfin⟩ := hto.2.2 i (Or.inl hrunning)
  refine ⟨st, ?_, hfin⟩
  simp only [SequenceState.step] at ht
  split at ht
  · cases ht
    rw [List.getElem?_set_ne (by omega)] at hst
    exact hst
  · cases ht

/-- Instance of C19: in a sequence of three children, after the first child has run and
succeeded the second can be started, and the first is then finished. -/
theorem SequenceState.starts_after_predecessor_witness :
    ∃ st, ({ children := [ChildState.finished Status_Success, ChildState.queued,
              ChildState.queued], dependencies := [(2, 1)] } : SequenceState).children[0]?
        = some (ChildState.finished st) ∧ st.isFinished = true :=
  (SequenceState.starts_after_predecessor 3
    [SequenceStep.start 0, SequenceStep.finish 0 Status_Success]
    { children := [ChildState.finished Status_Success, ChildState.queued,
        ChildState.queued], dependencies := [(2, 1)] } 0 (by decide)).1
    { children := [ChildState.finished Status_Success, ChildState.running,
        ChildState.queued], dependencies := [(2, 1)] } (by decide)

/-! ## The assertion on `remainingJobs` -/

/-- Freeing policies is no failed assertion. -/
theorem count_assertRemaining_policyFree (ps : List QueuePolicyPtr) (job : JobPointer) :
    (ps.map (fun p => CEvent.policyFree p job)).count (CEvent.assertRemaining false) = 0 :=
  count_policyFree ps job (CEvent.assertRemaining false) (by intro p; simp)

/-- Dequeue requests are no failed assertion. -/
theorem count_assertRemaining_dequeue (es : List JobPointer) (q : Nat) (locked : Bool) :
    (es.map (fun e => if locked then CEvent.dequeue_p q e else CEvent.dequeue q e)).count
      (CEvent.assertRemaining false) = 0 := by
  induction es with
  | nil => rfl
  | cons a rest ih => cases locked <;> simp_all

/-- A notification leaves `jobCounter` at the `remainingJobs` it has computed, and its
assertion `remainingJobs >= 0` fails exactly if that value is negative. -/
theorem Collection_Private.elementFinished_remainingJobs (s : Collection_Private)
    (job : JobPointer) (thread : ThreadPtr)
    (hq : s.selfIsExecuting = true → s.api ≠ none) :
    ∃ t, s.elementFinished job thread = some t ∧
      t.jobCounter = s.remainingJobs ∧
      t.failedRemainingAsserts =
        s.failedRemainingAsserts + (if 0 ≤ s.remainingJobs then 0 else 1) := by
  have hc := count_assertRemaining_policyFree s.queuePolicies s.self
  have e : ∀ x : Int, x + -1 = x - 1 := fun x => by omega
  cases hself : s.selfIsExecuting
  · by_cases hz : int32 (s.jobCounter - 1) = 0
    · simp [Collection_Private.elementFinished, Collection_Private.counterBeforeDecrement,
        Collection_Private.processCompletedElement, Collection_Private.finalCleanup,
        Collection_Private.freeQueuePolicyResources, Collection_Private.log,
        Collection_Private.failedRemainingAsserts, Collection_Private.remainingJobs,
        hself, hz, hc, e]
    · by_cases hn : 0 ≤ int32 (s.jobCounter - 1)
      · simp [Collection_Private.elementFinished, Collection_Private.counterBeforeDecrement,
          Collection_Private.processCompletedElement, Collection_Private.log,
          Collection_Private.failedRemainingAsserts, Collection_Private.remainingJobs,
          hself, hz, hn, e]
      · simp [Collection_Private.elementFinished, Collection_Private.counterBeforeDecrement,
          Collection_Private.processCompletedElement, Collection_Private.log,
          Collection_Private.failedRemainingAsserts, Collection_Private.remainingJobs,
          hself, hz, hn, e]
  · obtain ⟨q, hq⟩ := Option.ne_none_iff_exists'.1 (hq hself)
    by_cases hz : int32 (int32 ((s.elements.length : Int) + 1) - 1) = 0
    · simp [Collection_Private.elementFinished, Collection_Private.counterBeforeDecrement,
        Collection_Private.processCompletedElement, Collection_Private.finalCleanup,
        Collection_Private.freeQueuePolicyResources, Collection_Private.log,
        Collection_Private.failedRemainingAsserts, Collection_Private.remainingJobs,
        hself, hz, hc, hq, e,
        Collection_Private.enqueueElements, Collection_Private.prepareToEnqueueElements]
    · by_cases hn : 0 ≤ int32 (int32 ((s.elements.length : Int) + 1) - 1)
      · simp [Collection_Private.elementFinished, Collection_Private.counterBeforeDecrement,
          Collection_Private.processCompletedElement, Collection_Private.log,
          Collection_Private.failedRemainingAsserts, Collection_Private.remainingJobs,
          hself, hz, hn, hq, e, Collection_Private.enqueueElements,
          Collection_Private.prepareToEnqueueElements]
      · simp [Collection_Private.elementFinished, Collection_Private.counterBeforeDecrement,
          Collection_Private.processCompletedElement, Collection_Private.log,
          Collection_Private.failedRemainingAsserts, Collection_Private.remainingJobs,
          hself, hz, hn, hq, e, Collection_Private.enqueueElements,
          Collection_Private.prepareToEnqueueElements]

/-- A dequeue evaluates no assertion on `remainingJobs`. -/
theorem Collection_Private.dequeueElements_failedRemainingAsserts (s : Collection_Private)
    (locked : Bool) :
    (s.dequeueElements locked).failedRemainingAsserts = s.failedRemainingAsserts := by
  have hc := count_assertRemaining_policyFree s.queuePolicies s.self
  cases hapi : s.api with
  | none => simp [Collection_Private.dequeueElements, hapi]
  | some q =>
    have hd := count_assertRemaining_dequeue s.elements q locked
    by_cases hz : s.jobCounter = 0
    · simp [Collection_Private.dequeueElements, Collection_Private.log,
        Collection_Private.failedRemainingAsserts, hapi, hz, hd]
    · simp [Collection_Private.dequeueElements, Collection_Private.finalCleanup,
        Collection_Private.freeQueuePolicyResources, Collection_Private.log,
        Collection_Private.failedRemainingAsserts, hapi, hz, hd, hc]

/-- While notifications are outstanding, the `remainingJobs` of the next notification is
non-negative exactly if the queue reference is still set, that is, unless
`finalCleanup` has run already. -/
theorem Collection_Private.accounting_remainingJobs (n base done : Nat)
    (hn : (n : Int) + 1 < 2147483648) (s : Collection_Private)
    (h : s.accounting n base done) (hdone : done ≤ n) :
    (0 ≤ s.remainingJobs ↔ s.api ≠ none) := by
  obtain ⟨hlen, h⟩ := h
  rcases h with ⟨_, hself, hapi, _, _⟩ | ⟨h1, _, hself, hapi, hc, _⟩ |
    ⟨h1, hself, hapi, hlo, hhi, _⟩
  · have h1 : int32 ((n : Int) + 1) = (n : Int) + 1 :=
      int32_of_range ((n : Int) + 1) (by omega) hn
    have h2 : int32 ((n : Int) + 1 - 1) = (n : Int) + 1 - 1 :=
      int32_of_range ((n : Int) + 1 - 1) (by omega) (by omega)
    simp only [Collection_Private.remainingJobs, Collection_Private.counterBeforeDecrement,
      hself, hlen, if_true, h1, h2]
    exact ⟨fun _ => hapi, fun _ => by omega⟩
  · have h2 : int32 ((n : Int) + 1 - done - 1) = (n : Int) + 1 - done - 1 :=
      int32_of_range ((n : Int) + 1 - done - 1) (by omega) (by omega)
    simp only [Collection_Private.remainingJobs, Collection_Private.counterBeforeDecrement,
      hself, hc, h2]
    exact ⟨fun _ => hapi, fun _ => by simp; omega⟩
  · have h2 : int32 (s.jobCounter - 1) = s.jobCounter - 1 :=
      int32_of_range (s.jobCounter - 1) (by omega) (by omega)
    simp only [Collection_Private.remainingJobs, Collection_Private.counterBeforeDecrement,
      hself, h2]
    exact ⟨fun h => by simp at h; omega, fun h => absurd hapi h⟩

/-- In an interleaving of at most `n + 1` notifications with dequeues on a collection
of `n` children, the assertion `remainingJobs >= 0` of a notification holds
exactly if the queue reference is still set when the notification arrives: it
fails in the notifications that come after a dequeue has run `finalCleanup`. -/
theorem Collection_Private.remainingJobs_negative_iff_cleaned (n base : Nat)
    (hn : (n : Int) + 1 < 2147483648) (s : Collection_Private)
    (hs : s.accounting n base 0) (before after : List Op) (job : JobPointer)
    (thread : ThreadPtr)
    (hcount : notificationCount (before ++ Op.elementFinished job thread :: after) ≤ n + 1) :
    ∃ u t, s.run before = some u ∧ u.elementFinished job thread = some t ∧
      (0 ≤ u.remainingJobs ↔ u.api ≠ none) ∧
      t.jobCounter = u.remainingJobs ∧
      t.failedRemainingAsserts =
        u.failedRemainingAsserts + (if u.api ≠ none then 0 else 1) := by
  have hle : notificationCount before ≤ n := by
    simp [notificationCount, Op.isNotification] at hcount
    simp only [notificationCount]
    omega
  obtain ⟨u, hu, hacc⟩ := Collection_Private.accounting_run n base hn before s 0 hs
    (by omega)
  have hiff := Collection_Private.accounting_remainingJobs n base _ hn u hacc
    (by omega)
  have hq : u.selfIsExecuting = true → u.api ≠ none := by
    intro hself
    rcases hacc.2 with ⟨_, _, hapi, _⟩ | ⟨_, _, hf, _⟩ | ⟨_, hf, _⟩
    · exact hapi
    · rw [hf] at hself; cases hself
    · rw [hf] at hself; cases hself
  obtain ⟨t, ht, hjc, hfail⟩ := u.elementFinished_remainingJobs job thread hq
  refine ⟨u, t, hu, ht, hiff, hjc, ?_⟩
  rw [hfail]
  by_cases hr : 0 ≤ u.remainingJobs
  · simp [hr, hiff.1 hr]
  · have : ¬ u.api ≠ none := fun h => hr (hiff.2 h)
    simp [hr, this]

/-- C21, the code at the failing input.  A queued collection with two children receives
its own notification (the counter goes to 3 and then to 2, the assertion holds),
is dequeued (the counter is set to 0 and `finalCleanup` runs), and then
receives the notification of a child that was running: `remainingJobs` is `-1`,
the assertion `remainingJobs >= 0` is violated and `jobCounter` is left
negative.  These are two notifications, not more than `n + 1 = 3`. -/
theorem Collection_Private.remainingJobs_negative_after_dequeue :
    sampleCollection.selfIsExecuting = true ∧ sampleCollection.api = some 9 ∧
    sampleCollection.jobCounter = 0 ∧
    notificationCount [Op.elementFinished (some 0) 1, Op.dequeueElements false,
      Op.elementFinished (some 1) 1] ≤ sampleCollection.elements.length + 1 ∧
    (sampleCollection.run [Op.elementFinished (some 0) 1]).map
      (fun t => (t.jobCounter, t.failedRemainingAsserts)) = some (2, 0) ∧
    (sampleCollection.run [Op.elementFinished (some 0) 1, Op.dequeueElements false]).map
      (fun t => (t.jobCounter, t.finalCleanupRuns, t.remainingJobs)) = some (0, 1, -1) ∧
    (sampleCollection.run [Op.elementFinished (some 0) 1, Op.dequeueElements false,
        Op.elementFinished (some 1) 1]).map
      (fun t => (t.jobCounter, t.failedRemainingAsserts,
        decide (CEvent.assertRemaining false ∈ t.trace))) = some (-1, 1, true) := by
  decide

end ThreadWeaver
